import Mathlib

/-!
Verification of the SohnBot capability broker core against its
natural-language specification.

The Lean definitions in this file are shallow embeddings of the Python
source under `src/sohnbot/` and `scripts/`.  Every definition carries a
reference to the function it embeds.  Text is modelled as `List Char`
(obtained from `String.data`); `'\n'` is the only line terminator the
model considers, matching the texts the repository manipulates.
-/

namespace SohnBot

/-! ## Basic string utilities shared by the embeddings -/

/-- The characters of a string. -/
def chars (s : String) : List Char := s.data

/-- `startsWithL pre l` : the Python `str.startswith` test on char lists. -/
def startsWithL (pre l : List Char) : Bool := pre.isPrefixOf l

/-! ## Operation tier classification

Embedding of `classify_tier` from
`src/sohnbot/broker/operation_classifier.py`. -/

/-- The fixed read-only `(capability, action)` set (`READ_ONLY_ACTIONS`). -/
def readOnlyActions : List (String × String) :=
  [("fs", "read"), ("fs", "list"), ("fs", "search"),
   ("git", "status"), ("git", "diff"),
   ("web", "search"), ("profiles", "lint")]

/-- The single-file modification set (`SINGLE_FILE_ACTIONS`). -/
def singleFileActions : List (String × String) :=
  [("fs", "apply_patch"), ("git", "commit"), ("git", "checkout")]

/-- Embedding of `classify_tier(capability, action, file_count)`. -/
def classify_tier (capability action : String) (file_count : Nat) : Nat :=
  if (capability, action) ∈ readOnlyActions then 0
  else if (capability, action) ∈ singleFileActions ∧ file_count = 1 then 1
  else if file_count > 1 then 2
  else 2

/-! ## Scope validation

Embedding of `ScopeValidator` from `src/sohnbot/broker/scope_validator.py`.
A canonical absolute path is the list of its components from the filesystem
root.  `cwd` and `home` are the process working directory and the user's
home directory in that form.  The model's filesystem has no symlinks, so
`Path.resolve(strict=False)` acts purely lexically, which is what
`_normalize_path` relies on for traversal protection. -/

/-- Python `str.split(sep)` on char lists (always returns a nonempty list). -/
def splitOn (sep : Char) : List Char → List (List Char)
  | [] => [[]]
  | c :: cs =>
    let r := splitOn sep cs
    if c = sep then [] :: r
    else
      match r with
      | [] => [[c]]
      | h :: t => (c :: h) :: t

/-- `path.replace("\\", "/")` in `_normalize_path`. -/
def replaceBackslashes (l : List Char) : List Char :=
  l.map (fun c => if c = '\\' then '/' else c)

/-- Lexical resolution of `.` and `..` components performed by
`Path.resolve(strict=False)` (empty components collapse, `..` pops,
`..` at the root stays at the root). -/
def resolveDots (acc : List (List Char)) : List (List Char) → List (List Char)
  | [] => acc
  | p :: rest =>
    if p = [] ∨ p = ['.'] then resolveDots acc rest
    else if p = ['.', '.'] then resolveDots acc.dropLast rest
    else resolveDots (acc ++ [p]) rest

/-- Embedding of `ScopeValidator._normalize_path`: normalize separators,
expand a leading `~` to `home`, make the path absolute against `cwd`, and
resolve `.`/`..`. -/
def normalizeParts (cwd home : List (List Char)) (s : List Char) :
    List (List Char) :=
  let parts := splitOn '/' (replaceBackslashes s)
  match parts with
  | [] => resolveDots cwd []
  | p :: rest =>
    if p = [] then resolveDots [] rest
    else if p = ['~'] then resolveDots [] (home ++ rest)
    else resolveDots cwd (p :: rest)

/-- `_normalize_path` on a `String` input. -/
def normalizePath (cwd home : List (List Char)) (s : String) :
    List (List Char) :=
  normalizeParts cwd home s.data

/-- Embedding of `ScopeValidator.validate_path` (boolean component; the
error-message component of the Python tuple is dropped).  The allowed
roots are normalized at construction time, the input is normalized the
same way, and `Path.relative_to` succeeds exactly when the root's
components are a prefix of the input's components. -/
def validate_path (cwd home : List (List Char)) (roots : List String)
    (p : String) : Bool :=
  if p = "" then false
  else
    (roots.map (normalizePath cwd home)).any
      (fun r => r.isPrefixOf (normalizePath cwd home p))

/-! ## Broker router

Embedding of `BrokerRouter.route_operation` from
`src/sohnbot/broker/router.py`.  Database writes (`execution_log`,
`notification_outbox`) and the in-memory start-time map are modelled as
explicit state; the capability call, snapshot creation, and the per-chat
notification toggle are modelled by an oracle recording their outcomes,
since they are external effects. -/

/-- Operation parameters (`params` dict).  `none` means the key is
absent.  Only the keys `route_operation` inspects are modelled. -/
structure Params where
  path : Option String := none
  paths : Option (List String) := none
  pattern : Option String := none
  patch : Option String := none
  repo_path : Option String := none
  snapshot_ref : Option String := none
deriving DecidableEq

/-- Structured `details` of a broker error.  Capability-error details are
opaque to the router (passed through via `to_dict`), so they carry no
payload here. -/
inductive BrokerErrorDetails where
  | noDetails
  | actionOnly (action : String)
  | actionPattern (action : String) (pat : String)
  | scope (path : String) (normalizedPath : Option String)
      (allowedRoots : List String)
  | fromCapability
deriving DecidableEq

/-- A broker error dict: `{code, message, details, retryable}` (the
human-readable `message` string is not modelled). -/
structure BrokerError where
  code : String
  retryable : Bool
  details : BrokerErrorDetails
deriving DecidableEq

/-- One `execution_log` row (columns the claims mention). -/
structure LogRow where
  opId : String
  status : String
  snapshotRef : Option String
  errorCode : Option String
deriving DecidableEq

/-- One `notification_outbox` enqueue performed by the router:
`(operation_id, chat_id)`.  The formatted message text is not modelled
(no claim concerns it). -/
structure OutboxEnqueue where
  opId : String
  chatId : String
deriving DecidableEq

/-- The state `route_operation` reads and writes: the in-memory
start-time map (keys only), the `execution_log` table, and the
`notification_outbox` table. -/
structure BrokerState where
  startTimes : List String
  execLog : List LogRow
  outbox : List OutboxEnqueue
deriving DecidableEq

/-- Outcome of `SnapshotManager.create_snapshot` (an external git
subprocess). -/
inductive SnapOutcome where
  | snapOk (ref : String)
  | snapErr (code : String) (retryable : Bool)
deriving DecidableEq

/-- Outcome of the capability call under the broker deadline. -/
inductive ExecOutcome where
  | execOk
  | execTimeout
  | execCapErr (code : String) (retryable : Bool)
  | execRaise
deriving DecidableEq

/-- Oracle for the external effects of one routed operation. -/
structure Oracle where
  snap : SnapOutcome
  exec : ExecOutcome
  notificationsEnabled : Bool
  enqueueRaises : Bool
deriving DecidableEq

/-- `BrokerResult` (the `result` payload dict is modelled by the flag
`hasResult`). -/
structure BrokerResult where
  allowed : Bool
  operationId : String
  tier : Option Nat := none
  snapshotRef : Option String := none
  error : Option BrokerError := none
  hasResult : Bool := false
deriving DecidableEq

/-- `BrokerRouter._count_files`. -/
def countFiles (params : Params) : Nat :=
  match params.path with
  | some _ => 1
  | none =>
    match params.paths with
    | some ps => ps.length
    | none => 0

/-- `ScopeValidator.get_normalized_path`: `none` for the empty path,
otherwise the canonical component list (the string rendering of the
Python `Path` is represented by the components themselves). -/
def getNormalizedPath (cwd home : List (List Char)) (p : String) :
    Option (List (List Char)) :=
  if p = "" then none else some (normalizePath cwd home p)

/-- The scope-violation error built in `route_operation`, with details
`{path, normalized_path, allowed_roots}`.  Component lists are rendered
back to `/`-joined strings for the details payload. -/
def renderPath (comps : List (List Char)) : String :=
  "/" ++ String.intercalate "/" (comps.map fun c => String.mk c)

/-- `ScopeValidator.get_allowed_roots`. -/
def getAllowedRoots (cwd home : List (List Char)) (roots : List String) :
    List String :=
  roots.map fun r => renderPath (normalizePath cwd home r)

/-- The `scope_violation` error dict built in `route_operation`. -/
def scopeViolationErr (cwd home : List (List Char)) (roots : List String)
    (p : String) : BrokerError :=
  ⟨"scope_violation", false,
    .scope p ((getNormalizedPath cwd home p).map renderPath)
      (getAllowedRoots cwd home roots)⟩

/-- The fs actions that require a `path` parameter. -/
def fsPathActions : List String := ["read", "list", "search", "apply_patch"]

/-- The fs-capability validation block of `route_operation` (parameter
checks, then scope validation of `path` and every entry of `paths`),
returning the first denial, if any. -/
def fsValidationError (cwd home : List (List Char)) (roots : List String)
    (action : String) (params : Params) : Option BrokerError :=
  if action ∈ fsPathActions ∧ params.path = none then
    some ⟨"invalid_request", false, .actionOnly action⟩
  else if action = "search" ∧
      (params.pattern = none ∨ params.pattern = some "") then
    some ⟨"invalid_request", false,
      .actionPattern action (params.pattern.getD "")⟩
  else if action = "apply_patch" ∧
      (params.patch = none ∨ params.patch = some "") then
    some ⟨"invalid_request", false, .actionOnly action⟩
  else
    match ((match params.path with | some p => [p] | none => []) ++
        params.paths.getD []).find?
        (fun p => ¬ validate_path cwd home roots p) with
    | some p => some (scopeViolationErr cwd home roots p)
    | none => none

/-- The git-capability validation block of `route_operation` (required
parameters, then scope validation of a non-empty `repo_path`). -/
def gitValidationError (cwd home : List (List Char)) (roots : List String)
    (action : String) (params : Params) : Option BrokerError :=
  if action ∈ ["status", "diff", "list_snapshots"] ∧
      params.repo_path = none then
    some ⟨"invalid_request", false, .actionOnly action⟩
  else if action = "rollback" ∧
      (params.repo_path = none ∨ params.snapshot_ref = none) then
    some ⟨"invalid_request", false, .actionOnly action⟩
  else
    match params.repo_path with
    | some rp =>
      if rp ≠ "" ∧ ¬ validate_path cwd home roots rp then
        some (scopeViolationErr cwd home roots rp)
      else none
    | none => none

/-- Step 3/4 of `route_operation`: the validation phase, returning the
first denial, if any. -/
def validationError (cwd home : List (List Char)) (roots : List String)
    (capability action : String) (params : Params) : Option BrokerError :=
  if capability = "fs" then fsValidationError cwd home roots action params
  else if capability = "git" then
    gitValidationError cwd home roots action params
  else none

/-- `log_operation_end`: `UPDATE execution_log SET status, snapshot_ref,
duration_ms, error_details WHERE operation_id = ?` (the row's
`snapshot_ref` is overwritten with the given value, `none` included). -/
def applyLogEnd (log : List LogRow) (opId status : String)
    (snapRef : Option String) (errCode : Option String) : List LogRow :=
  log.map fun row =>
    if row.opId = opId then ⟨row.opId, status, snapRef, errCode⟩ else row

/-- `_enqueue_operation_notification`: skipped when notifications are
disabled for the chat; an enqueue failure is swallowed. -/
def enqueueNotification (o : Oracle) (st : BrokerState)
    (opId chatId : String) : BrokerState :=
  if o.notificationsEnabled ∧ ¬ o.enqueueRaises then
    {st with outbox := st.outbox ++ [⟨opId, chatId⟩]}
  else st

/-- The condition under which `route_operation` creates a snapshot:
`tier in (1, 2)` and not a `git` `rollback`/`list_snapshots` operation
(`git prune_snapshots` is NOT in the exclusion set in the code). -/
def needSnapshot (capability action : String) (tier : Nat) : Bool :=
  decide ((tier = 1 ∨ tier = 2) ∧
    ¬(capability = "git" ∧ (action = "rollback" ∨ action = "list_snapshots")))

/-- The snapshot step of `route_operation`: performed only when
`needSnapshot` holds; `_create_snapshot` raises `snapshot_skipped` when
no `path` parameter (or an empty one) is available to locate the repo. -/
def snapshotStep (needSnap : Bool) (params : Params) (o : Oracle) :
    Except BrokerError (Option String) :=
  if needSnap then
    match params.path with
    | none => .error ⟨"snapshot_skipped", false, .noDetails⟩
    | some p =>
      if p = "" then .error ⟨"snapshot_skipped", false, .noDetails⟩
      else
        match o.snap with
        | .snapOk ref => .ok (some ref)
        | .snapErr c r => .error ⟨c, r, .fromCapability⟩
  else .ok none

/-- Embedding of `BrokerRouter.route_operation`.  `opId` stands for the
freshly generated `uuid4`.  Returns the `BrokerResult` and the state
after the operation. -/
def route_operation (cwd home : List (List Char)) (roots : List String)
    (capability action : String) (params : Params) (chatId opId : String)
    (o : Oracle) (st : BrokerState) : BrokerResult × BrokerState :=
  -- 1. record the start time
  let st1 : BrokerState := {st with startTimes := opId :: st.startTimes}
  -- 2. classify
  let tier := classify_tier capability action (countFiles params)
  -- 3./4. validate; denials pop the start time and return before any write
  match validationError cwd home roots capability action params with
  | some e =>
    (⟨false, opId, some tier, none, some e, false⟩,
      {st1 with startTimes := st1.startTimes.filter (· ≠ opId)})
  | none =>
    -- 5. log operation start (`in_progress` row)
    let st2 : BrokerState :=
      {st1 with execLog := st1.execLog ++ [⟨opId, "in_progress", none, none⟩]}
    -- every terminal path pops the start time via `_calculate_duration`
    let popped := st2.startTimes.filter (· ≠ opId)
    -- 6. snapshot when tier 1/2 and not a git rollback/list_snapshots
    match snapshotStep (needSnapshot capability action tier) params o with
    | .error e =>
      -- snapshot failure caught as a capability error
      let st3 : BrokerState :=
        { st2 with
          startTimes := popped
          execLog := applyLogEnd st2.execLog opId "failed" none (some e.code) }
      (⟨false, opId, some tier, none, some e, false⟩,
        enqueueNotification o st3 opId chatId)
    | .ok snapRef =>
      match o.exec with
      | .execOk =>
        let st3 : BrokerState :=
          { st2 with
            startTimes := popped
            execLog := applyLogEnd st2.execLog opId "completed" snapRef none }
        (⟨true, opId, some tier, snapRef, none, true⟩,
          enqueueNotification o st3 opId chatId)
      | .execTimeout =>
        let st3 : BrokerState :=
          { st2 with
            startTimes := popped
            execLog :=
              applyLogEnd st2.execLog opId "failed" none (some "timeout") }
        (⟨false, opId, some tier, none,
            some ⟨"timeout", true, .noDetails⟩, false⟩,
          enqueueNotification o st3 opId chatId)
      | .execCapErr c r =>
        let st3 : BrokerState :=
          { st2 with
            startTimes := popped
            execLog := applyLogEnd st2.execLog opId "failed" none (some c) }
        (⟨false, opId, some tier, none, some ⟨c, r, .fromCapability⟩, false⟩,
          enqueueNotification o st3 opId chatId)
      | .execRaise =>
        let st3 : BrokerState :=
          { st2 with
            startTimes := popped
            execLog :=
              applyLogEnd st2.execLog opId "failed" none
                (some "execution_error") }
        (⟨false, opId, some tier, none,
            some ⟨"execution_error", false, .noDetails⟩, false⟩,
          enqueueNotification o st3 opId chatId)

/-! ## Notification outbox worker

Embedding of the outbox row operations from
`src/sohnbot/persistence/notification.py` and the per-row processing of
`NotificationWorker._process_notification` from
`src/sohnbot/gateway/notification_worker.py`.  Each SQL `UPDATE ...
WHERE id = ?` touches exactly one row, so the model works on a single
row; timestamps are epoch seconds. -/

/-- One `notification_outbox` row (the columns the worker touches). -/
structure OutboxRow where
  status : String
  retryCount : Nat
  sentAt : Option Nat
  createdAt : Nat
  errorDetails : Option String
deriving DecidableEq

/-- `enqueue_notification`: a fresh `pending` row with `retry_count` 0. -/
def enqueue_notification_row (now : Nat) : OutboxRow :=
  ⟨"pending", 0, none, now, none⟩

/-- `mark_notification_sent`. -/
def mark_notification_sent (now : Nat) (r : OutboxRow) : OutboxRow :=
  { r with
    status := "sent"
    sentAt := some now
    errorDetails := none }

/-- `mark_notification_failed`. -/
def mark_notification_failed (err : String) (r : OutboxRow) : OutboxRow :=
  { r with
    status := "failed"
    retryCount := r.retryCount + 1
    errorDetails := some err }

/-- `schedule_notification_retry` (`max(0, delay)` is implicit in the
`Nat` delay). -/
def schedule_notification_retry (now delay : Nat) (r : OutboxRow) :
    OutboxRow :=
  { r with
    status := "pending"
    createdAt := now + delay }

/-- `requeue_notification` is defined in `persistence/notification.py`
but has no caller anywhere in the repository, so it does not appear in
the reachable-row relation below. -/
def requeue_notification_row (r : OutboxRow) : OutboxRow :=
  { r with status := "pending" }

/-- `NotificationWorker._process_notification` on one fetched row.
`invalidChat` is the `int(chat_id)` failure branch; `sendOk` the
`telegram_client.send_message` outcome. -/
def process_notification (pollInterval maxRetries now : Nat)
    (invalidChat sendOk : Bool) (r : OutboxRow) : OutboxRow :=
  if invalidChat then mark_notification_failed "invalid chat_id" r
  else if sendOk then mark_notification_sent now r
  else
    let r1 := mark_notification_failed "telegram send failed" r
    if r.retryCount + 1 < maxRetries then
      schedule_notification_retry now (pollInterval ^ (r.retryCount + 1)) r1
    else r1

/-- The rows reachable in the outbox: freshly enqueued rows, and rows the
worker has processed (the worker only fetches `pending` rows). -/
inductive OutboxReachable (pollInterval maxRetries : Nat) : OutboxRow → Prop
  | enqueued (now : Nat) :
      OutboxReachable pollInterval maxRetries (enqueue_notification_row now)
  | processed {r : OutboxRow} (now : Nat) (invalidChat sendOk : Bool) :
      OutboxReachable pollInterval maxRetries r → r.status = "pending" →
      OutboxReachable pollInterval maxRetries
        (process_notification pollInterval maxRetries now invalidChat sendOk r)

/-! ## Migration runner

Embedding of `apply_migrations` from `scripts/migrate.py`.  SHA-256 is
an abstract function parameter `hash`; a migration file is a
`(name, content)` pair; `executed` records the migration scripts
actually run against the database (`conn.executescript`). -/

/-- One `schema_migrations` row. -/
structure SchemaRow where
  name : String
  checksum : String
  appliedAt : Nat
deriving DecidableEq

/-- The database state `apply_migrations` manipulates. -/
structure MigrateState where
  schemaRows : List SchemaRow
  executed : List String
deriving DecidableEq

/-- The payload of the `migration_tampered` RuntimeError. -/
structure TamperError where
  name : String
  expected : String
  got : String
deriving DecidableEq

/-- The `applied` dict built from `schema_migrations`
(`migration_name` is the primary key, so `find?` is the dict lookup). -/
def lookupChecksum (rows : List SchemaRow) (name : String) :
    Option String :=
  (rows.find? (fun row => row.name = name)).map (·.checksum)

/-- Lexical order on migration files (by name). -/
def migLe (a b : String × String) : Prop := a.1 ≤ b.1

instance : DecidableRel migLe :=
  fun a b => inferInstanceAs (Decidable (a.1 ≤ b.1))

instance : IsTotal (String × String) migLe := ⟨fun a b => le_total a.1 b.1⟩

instance : IsTrans (String × String) migLe :=
  ⟨fun _ _ _ h1 h2 => le_trans h1 h2⟩

/-- `discover_migrations`: `*.sql` files in lexical order, excluding the
literal name `schema_migrations.sql`. -/
def discover_migrations (files : List (String × String)) :
    List (String × String) :=
  (List.insertionSort migLe
      (files.filter (fun f => f.1.endsWith ".sql"))).filter
    (fun f => f.1 ≠ "schema_migrations.sql")

/-- The main loop of `apply_migrations`: skip already-applied migrations
whose recomputed checksum matches, abort with `migration_tampered` (and
no further changes: the state at abort is returned with the error) on a
mismatch, and execute-and-record new migrations. -/
def apply_migrations_go (hash : String → String) (now : Nat) :
    List (String × String) → MigrateState →
      Except (TamperError × MigrateState) MigrateState
  | [], st => .ok st
  | (name, content) :: rest, st =>
    match lookupChecksum st.schemaRows name with
    | some c =>
      if hash content = c then apply_migrations_go hash now rest st
      else .error (⟨name, c, hash content⟩, st)
    | none =>
      apply_migrations_go hash now rest
        { st with
          schemaRows := st.schemaRows ++ [⟨name, hash content, now⟩]
          executed := st.executed ++ [name] }

/-- `apply_migrations`: discovery, then the loop. -/
def apply_migrations (hash : String → String) (now : Nat)
    (files : List (String × String)) (st : MigrateState) :
    Except (TamperError × MigrateState) MigrateState :=
  apply_migrations_go hash now (discover_migrations files) st

/-! ## Patch editor

Embedding of `PatchEditor.apply_patch` and its helpers from
`src/sohnbot/capabilities/files/patch_editor.py`, in the configuration
without the external `patch` library (`patch_lib is None`), where
`_apply_patch_fallback` performs the application.  File contents and
patches are char lists; `'\n'` is the only line terminator. -/

/-- Python `splitlines(keepends=True)` for `'\n'`-terminated text. -/
def splitKeepAux : List Char → List Char → List (List Char)
  | [], acc => if acc.isEmpty then [] else [acc.reverse]
  | c :: cs, acc =>
    if c = '\n' then (acc.reverse ++ ['\n']) :: splitKeepAux cs []
    else splitKeepAux cs (c :: acc)

/-- `splitlines(keepends=True)`. -/
def splitLinesKeep (s : List Char) : List (List Char) := splitKeepAux s []

/-- Python `splitlines()` (terminators dropped) for `'\n'` texts. -/
def splitNoKeepAux : List Char → List Char → List (List Char)
  | [], acc => if acc.isEmpty then [] else [acc.reverse]
  | c :: cs, acc =>
    if c = '\n' then acc.reverse :: splitNoKeepAux cs []
    else splitNoKeepAux cs (c :: acc)

/-- `splitlines()`. -/
def splitLines (s : List Char) : List (List Char) := splitNoKeepAux s []

/-- Python substring containment (`pat in s`). -/
def isSubstrOf (pat : List Char) : List Char → Bool
  | [] => pat.isEmpty
  | c :: rest => pat.isPrefixOf (c :: rest) || isSubstrOf pat rest

/-- Python whitespace for `str.strip()`. -/
def isPySpace (c : Char) : Bool :=
  c = ' ' ∨ c = '\t' ∨ c = '\n' ∨ c = '\r' ∨ c = '\x0b' ∨ c = '\x0c'

/-- Python `str.strip()`. -/
def pyStrip (l : List Char) : List Char :=
  ((l.dropWhile isPySpace).reverse.dropWhile isPySpace).reverse

/-- The source path of a `--- <p>` header line as `_count_patch_source_files`
extracts it (`line[4:].split("\t")[0].strip()`), skipping empty paths and
`/dev/null`. -/
def sourcePathOf (line : List Char) : Option (List Char) :=
  if startsWithL (chars "--- ") line then
    let p := pyStrip ((line.drop 4).takeWhile (· ≠ '\t'))
    if p ≠ [] ∧ p ≠ chars "/dev/null" then some p else none
  else none

/-- The set of distinct source paths, in first-seen order. -/
def collectSources : List (List Char) → List (List Char) → List (List Char)
  | [], acc => acc
  | l :: ls, acc =>
    match sourcePathOf l with
    | some p => collectSources ls (if p ∈ acc then acc else acc ++ [p])
    | none => collectSources ls acc

/-- `_count_patch_source_files`. -/
def count_patch_source_files (patch : List Char) : Nat :=
  (collectSources (splitLines patch) []).length

/-- `_uses_dev_null_headers`. -/
def uses_dev_null_headers (patch : List Char) : Bool :=
  (splitLines patch).any fun l =>
    startsWithL (chars "--- /dev/null") l || startsWithL (chars "+++ /dev/null") l

/-- Added lines counted by `_count_diff_lines`: lines starting `+` but
not `+++`. -/
def countAdded (lines : List (List Char)) : Nat :=
  (lines.filter fun l =>
    startsWithL ['+'] l && ! startsWithL (chars "+++") l).length

/-- Removed lines counted by `_count_diff_lines`: lines starting `-` but
not `---`. -/
def countRemoved (lines : List (List Char)) : Nat :=
  (lines.filter fun l =>
    startsWithL ['-'] l && ! startsWithL (chars "---") l).length

/-- One header rewrite of `_normalize_patch_paths`: a `--- `/`+++ ` line
becomes `prefix ++ filename ++ suffix` where the suffix is the
tab-separated remainder when present, else a bare newline; other lines
are unchanged. -/
def normalize_patch_line (filename line : List Char) : List Char :=
  if startsWithL (chars "--- ") line ∨ startsWithL (chars "+++ ") line then
    let rest := line.drop 4
    let afterTab := rest.dropWhile (· ≠ '\t')
    if afterTab.isEmpty then line.take 4 ++ filename ++ ['\n']
    else line.take 4 ++ filename ++ afterTab
  else line

/-- `_normalize_patch_paths`. -/
def normalize_patch_paths (patch filename : List Char) : List Char :=
  ((splitLinesKeep patch).map (normalize_patch_line filename)).flatten

/-- `Path(path).name` for POSIX paths without trailing slash. -/
def pyBasename (path : List Char) : List Char :=
  (path.reverse.takeWhile (· ≠ '/')).reverse

/-- `str.rstrip("\n")`. -/
def rstripNl (l : List Char) : List Char :=
  (l.reverse.dropWhile (· = '\n')).reverse

/-- Digit run to `Nat`. -/
def digitsToNat (ds : List Char) : Nat :=
  ds.foldl (fun n c => n * 10 + (c.toNat - 48)) 0

/-- Parse a maximal nonempty digit run (`\d+`). -/
def parseDigits (l : List Char) : Option (Nat × List Char) :=
  let ds := l.takeWhile Char.isDigit
  if ds.isEmpty then none else some (digitsToNat ds, l.drop ds.length)

/-- The optional `,\d+` group: absent when no comma; a comma must be
followed by digits (otherwise the anchored regex fails either way). -/
def parseOptCount (l : List Char) : Option (List Char) :=
  match l with
  | ',' :: rest => (parseDigits rest).map (·.2)
  | _ => some l

/-- `_HUNK_RE.match(line.rstrip("\n"))`, returning the captured old
start (`@@ -(\d+)(?:,(\d+))? \+(\d+)(?:,(\d+))? @@`, start-anchored
only). -/
def parse_hunk_header (line : List Char) : Option Nat :=
  match rstripNl line with
  | '@' :: '@' :: ' ' :: '-' :: rest =>
    (parseDigits rest).bind fun pr =>
      (parseOptCount pr.2).bind fun r2 =>
        match r2 with
        | ' ' :: '+' :: r3 =>
          (parseDigits r3).bind fun pr2 =>
            (parseOptCount pr2.2).bind fun r5 =>
              match r5 with
              | ' ' :: '@' :: '@' :: _ => some pr.1
              | _ => none
        | _ => none
  | _ => none

/-- Error payload of `FileCapabilityError` (code plus the
`source_file_count` detail when present). -/
structure FileErr where
  code : String
  sourceFileCount : Option Nat := none
deriving DecidableEq

/-- The loop of `_apply_patch_fallback` over the patch lines.  The
Python outer `while` (header skipping, hunk-header parsing, copying the
untouched segment) and inner hunk `while` (context/remove/add lines)
are fused into one recursion over the lines with an `inHunk` flag: the
inner loop runs exactly while `inHunk` holds and the line does not start
with `@@`, which is the Python inner loop's entry/break condition.
State: `si` is `src_index`, `res` the accumulated `result`. -/
def fb_loop (original : List (List Char)) :
    List (List Char) → Bool → Nat → List (List Char) →
      Except FileErr (Nat × List (List Char))
  | [], _, si, res => .ok (si, res)
  | l :: rest, inHunk, si, res =>
    if inHunk ∧ ¬ startsWithL (chars "@@") l then
      -- inner hunk loop body
      if startsWithL ['\\'] l then fb_loop original rest true si res
      else
        match l with
        | [] => .error ⟨"invalid_patch_format", none⟩
        | c :: payload =>
          if c = ' ' then
            if original[si]? = some payload then
              fb_loop original rest true (si + 1) (res ++ [payload])
            else .error ⟨"patch_apply_failed", none⟩
          else if c = '-' then
            if original[si]? = some payload then
              fb_loop original rest true (si + 1) res
            else .error ⟨"patch_apply_failed", none⟩
          else if c = '+' then fb_loop original rest true si (res ++ [payload])
          else .error ⟨"invalid_patch_format", none⟩
    else
      -- outer loop body
      if startsWithL (chars "--- ") l ∨ startsWithL (chars "+++ ") l then
        fb_loop original rest false si res
      else
        match parse_hunk_header l with
        | none => fb_loop original rest false si res
        | some oldStart =>
          -- copy the untouched segment up to the hunk start
          let target := min (oldStart - 1) original.length
          fb_loop original rest true (max si target)
            (res ++ (original.take target).drop si)

/-- `_apply_patch_fallback`: run the loop from the start and append the
remaining untouched source. -/
def apply_patch_fallback (original patchLines : List (List Char)) :
    Except FileErr (List (List Char)) :=
  match fb_loop original patchLines false 0 [] with
  | .error e => .error e
  | .ok (si, res) => .ok (res ++ original.drop si)

/-- The `return` dict of `apply_patch`. -/
structure PatchResult where
  path : List Char
  linesAdded : Nat
  linesRemoved : Nat
deriving DecidableEq

/-- UTF-8 byte length (`len(patch_content.encode())`). -/
def utf8Len (l : List Char) : Nat :=
  l.foldl (fun n c => n + c.utf8Size) 0

/-- Embedding of `PatchEditor.apply_patch` (fallback configuration).
`fileContent` is the target file's lines (`splitlines(keepends=True)`),
`none` when the file does not exist.  Returns the result (or the raised
error) together with the file's content afterwards — errors mutate
nothing. -/
def apply_patch (fileContent : Option (List (List Char)))
    (path patch : List Char) (patchMaxKb : Nat) :
    Except FileErr PatchResult × Option (List (List Char)) :=
  -- 1. size check
  if utf8Len patch > patchMaxKb * 1024 then
    (.error ⟨"patch_too_large", none⟩, fileContent)
  -- 2. the three unified-diff markers
  else if ¬ (isSubstrOf (chars "---") patch ∧ isSubstrOf (chars "+++") patch
      ∧ isSubstrOf (chars "@@") patch) then
    (.error ⟨"invalid_patch_format", none⟩, fileContent)
  -- 3. single-file source count
  else if count_patch_source_files patch > 1 then
    (.error ⟨"invalid_patch_format", some (count_patch_source_files patch)⟩,
      fileContent)
  else if uses_dev_null_headers patch then
    (.error ⟨"patch_apply_failed", none⟩, fileContent)
  else
    -- 4. existence
    match fileContent with
    | none => (.error ⟨"path_not_found", none⟩, none)
    | some original =>
      -- 5. counts from the ORIGINAL patch text
      let added := countAdded (splitLines patch)
      let removed := countRemoved (splitLines patch)
      -- 6. header normalization to the target's basename, then 7. apply
      match apply_patch_fallback original
          (splitLinesKeep (normalize_patch_paths patch (pyBasename path))) with
      | .error e => (.error e, some original)
      | .ok newLines => (.ok ⟨path, added, removed⟩, some newLines)

/-! ### Structured unified diffs (specification side for the round-trip) -/

/-- One line of a unified-diff hunk body. -/
inductive DiffOp where
  | ctx (s : List Char)
  | del (s : List Char)
  | add (s : List Char)
deriving DecidableEq

/-- A hunk: 1-based old-file start plus body. -/
structure Hunk where
  oldStart : Nat
  ops : List DiffOp
deriving DecidableEq

/-- The old-file lines a hunk consumes (context and removed lines). -/
def opsOld : List DiffOp → List (List Char)
  | [] => []
  | .ctx s :: t => s :: opsOld t
  | .del s :: t => s :: opsOld t
  | .add _ :: t => opsOld t

/-- The new-file lines a hunk produces (context and added lines). -/
def opsNew : List DiffOp → List (List Char)
  | [] => []
  | .ctx s :: t => s :: opsNew t
  | .del _ :: t => opsNew t
  | .add s :: t => s :: opsNew t

/-- The rendered patch line of a hunk body op. -/
def renderOp : DiffOp → List Char
  | .ctx s => ' ' :: s
  | .del s => '-' :: s
  | .add s => '+' :: s

/-- `rendersHunks hs ls`: the patch lines `ls` are exactly the hunks
`hs`, each a header line parsing to the hunk's old start followed by its
rendered body. -/
def rendersHunks : List Hunk → List (List Char) → Bool
  | [], [] => true
  | h :: t, hl :: ls =>
    decide (parse_hunk_header hl = some h.oldStart) &&
    startsWithL (chars "@@") hl &&
    (h.ops.map renderOp).isPrefixOf ls &&
    rendersHunks t (ls.drop (h.ops.map renderOp).length)
  | _, _ => false

/-- `validFrom f pos hs`: the hunks apply to `f`, in order, starting at
or after the already-consumed position `pos`: each hunk starts inside
the file no earlier than `pos`, and its context/removed lines match the
file there. -/
def validFrom (f : List (List Char)) : Nat → List Hunk → Bool
  | _, [] => true
  | pos, h :: t =>
    decide (pos ≤ h.oldStart - 1) && decide (h.oldStart - 1 ≤ f.length) &&
    decide ((f.drop (h.oldStart - 1)).take (opsOld h.ops).length =
      opsOld h.ops) &&
    validFrom f (h.oldStart - 1 + (opsOld h.ops).length) t

/-- The old-file position after applying the hunks. -/
def endPos : Nat → List Hunk → Nat
  | pos, [] => pos
  | _, h :: t => endPos (h.oldStart - 1 + (opsOld h.ops).length) t

/-- The output produced while processing the hunks (untouched segments
between hunks plus each hunk's new lines), excluding the tail after the
last hunk. -/
def specBody (f : List (List Char)) : Nat → List Hunk → List (List Char)
  | _, [] => []
  | pos, h :: t =>
    (f.drop pos).take (h.oldStart - 1 - pos) ++ opsNew h.ops ++
      specBody f (h.oldStart - 1 + (opsOld h.ops).length) t

/-- The new file a valid structured diff denotes. -/
def specApply (f : List (List Char)) (hs : List Hunk) : List (List Char) :=
  specBody f 0 hs ++ f.drop (endPos 0 hs)

/-- A well-formed `splitlines(keepends=True)` line: nonempty, ends with
the `'\n'` terminator, no interior `'\n'`. -/
def wfKeepLine (l : List Char) : Bool :=
  !l.isEmpty && (l.getLast? == some '\n') && l.dropLast.all (· ≠ '\n')

/-- A hunk-body op whose rendered line cannot be mistaken for a file
header or header-like count line: payload nonempty (a keepends line),
removed payloads not starting `--`, added payloads not starting `++`. -/
def opSafe : DiffOp → Bool
  | .ctx s => !s.isEmpty
  | .del s => !s.isEmpty && ! startsWithL ['-', '-'] s
  | .add s => !s.isEmpty && ! startsWithL ['+', '+'] s

/-- Is the op an addition? -/
def isAdd : DiffOp → Bool
  | .add _ => true
  | _ => false

/-- Is the op a removal? -/
def isDel : DiffOp → Bool
  | .del _ => true
  | _ => false

/-- Number of added lines the structured diff contains. -/
def addsOf (hs : List Hunk) : Nat :=
  (hs.map fun h => (h.ops.filter isAdd).length).sum

/-- Number of removed lines the structured diff contains. -/
def delsOf (hs : List Hunk) : Nat :=
  (hs.map fun h => (h.ops.filter isDel).length).sum

/-! ## Theorems -/

/-- The read-only and single-file action sets of `classify_tier` are
disjoint. -/
theorem readOnly_singleFile_disjoint :
    ∀ q ∈ readOnlyActions, q ∉ singleFileActions := by decide

/-- Claim C3 (counterexample): the claim states `classify_tier` returns 2
if and only if `fileCount > 1`, but `classify_tier("fs", "read", 2)`
returns 0 even though the file count 2 exceeds 1: the read-only rule is
checked first and wins regardless of the file count. -/
theorem classify_tier_fileCount_iff_false :
    classify_tier "fs" "read" 2 = 0 ∧ (2 : Nat) > 1 := by decide

/-- Claim C3 (amended): `classify_tier` returns 0 iff `(capability,
action)` is in the fixed read-only set; returns 1 iff `(capability,
action)` is in the single-file set and `fileCount = 1`; and returns 2 iff
neither of the two earlier rules matches (which subsumes both
`fileCount > 1` and the default case). -/
theorem classify_tier_characterization :
    ∀ (cap act : String) (n : Nat),
      (classify_tier cap act n = 0 ↔ (cap, act) ∈ readOnlyActions) ∧
      (classify_tier cap act n = 1 ↔
        (cap, act) ∈ singleFileActions ∧ n = 1) ∧
      (classify_tier cap act n = 2 ↔
        (cap, act) ∉ readOnlyActions ∧
          ¬((cap, act) ∈ singleFileActions ∧ n = 1)) := by
  intro cap act n
  by_cases h1 : (cap, act) ∈ readOnlyActions
  · have h2 : (cap, act) ∉ singleFileActions :=
      readOnly_singleFile_disjoint _ h1
    simp [classify_tier, h1, h2]
  · by_cases h2 : (cap, act) ∈ singleFileActions ∧ n = 1
    · simp [classify_tier, h1, h2]
    · simp [classify_tier, h1, h2]

/-- Claim C3 witness: the amended characterization evaluated at concrete
inputs. -/
theorem classify_tier_characterization_witness :
    classify_tier "fs" "apply_patch" 1 = 1 :=
  (classify_tier_characterization "fs" "apply_patch" 1).2.1.mpr (by decide)

/-- Claim C1: `validate_path` soundness.  (1) A `true` verdict implies
some canonicalized allowed root is a component-wise prefix of the
canonicalized input; (2) for any allowed root and suffix `x`, if
`root ++ "/.." ++ x` canonicalizes outside every allowed root then
`validate_path` rejects it (canonicalization expands `..` before the
prefix check); (3) the empty path is rejected. -/
theorem validate_path_soundness :
    ∀ (cwd home : List (List Char)) (roots : List String),
      (∀ p : String, validate_path cwd home roots p = true →
        ∃ r ∈ roots, (normalizePath cwd home r).isPrefixOf
          (normalizePath cwd home p) = true) ∧
      (∀ root x : String, root ∈ roots →
        (∀ r ∈ roots, (normalizePath cwd home r).isPrefixOf
          (normalizePath cwd home (root ++ "/.." ++ x)) = false) →
        validate_path cwd home roots (root ++ "/.." ++ x) = false) ∧
      validate_path cwd home roots "" = false := by
  intro cwd home roots
  have part1 : ∀ p : String, validate_path cwd home roots p = true →
      ∃ r ∈ roots, (normalizePath cwd home r).isPrefixOf
        (normalizePath cwd home p) = true := by
    intro p h
    unfold validate_path at h
    split at h
    · exact absurd h (by simp)
    · rw [List.any_eq_true] at h
      obtain ⟨r', hr', hpre⟩ := h
      rw [List.mem_map] at hr'
      obtain ⟨r, hr, rfl⟩ := hr'
      exact ⟨r, hr, hpre⟩
  refine ⟨part1, ?_, ?_⟩
  · intro root x _hroot hout
    cases hv : validate_path cwd home roots (root ++ "/.." ++ x) with
    | false => rfl
    | true =>
      obtain ⟨r, hr, hpre⟩ := part1 _ hv
      rw [hout r hr] at hpre
      exact absurd hpre (by simp)
  · simp [validate_path]

/-- Claim C1 witness: a concrete traversal attempt
`/tmp/Projects/../etc/passwd` is rejected, with each hypothesis of the
soundness theorem discharged by evaluation. -/
theorem validate_path_soundness_witness :
    validate_path [] [] ["/tmp/Projects"]
      ("/tmp/Projects" ++ "/.." ++ "/etc/passwd") = false :=
  (validate_path_soundness [] [] ["/tmp/Projects"]).2.1
    "/tmp/Projects" "/etc/passwd" (by decide) (by decide)

/-- Every denial produced by the validation phase is either an
`invalid_request` or a scope-violation error carrying `{path,
normalized_path, allowed_roots}` details, both with `retryable = false`. -/
theorem validationError_cases (cwd home : List (List Char))
    (roots : List String) (cap act : String) (params : Params) :
    ∀ e, validationError cwd home roots cap act params = some e →
      (e.code = "invalid_request" ∧ e.retryable = false) ∨
      ∃ p, e = scopeViolationErr cwd home roots p := by
  intro e h
  unfold validationError fsValidationError gitValidationError at h
  repeat' split at h
  all_goals try exact Option.noConfusion h
  all_goals cases h
  all_goals first
    | exact Or.inl ⟨rfl, rfl⟩
    | exact Or.inr ⟨_, rfl⟩

/-- Claim C2: a broker denial during validation (missing/invalid
parameter or scope violation) returns `allowed = false` with the denial
error, writes no `execution_log` row and no outbox row, and removes the
operation's start-time entry. -/
theorem route_denied_writes_nothing
    (cwd home : List (List Char)) (roots : List String)
    (cap act : String) (params : Params) (chatId opId : String)
    (o : Oracle) (st : BrokerState) (e : BrokerError) :
    validationError cwd home roots cap act params = some e →
    (route_operation cwd home roots cap act params chatId opId o st).1 =
      ⟨false, opId, some (classify_tier cap act (countFiles params)),
        none, some e, false⟩ ∧
    (route_operation cwd home roots cap act params chatId opId o st).2.execLog
      = st.execLog ∧
    (route_operation cwd home roots cap act params chatId opId o st).2.outbox
      = st.outbox ∧
    opId ∉ (route_operation cwd home roots cap act params
      chatId opId o st).2.startTimes ∧
    ((e.code = "invalid_request" ∧ e.retryable = false) ∨
      ∃ p, e = scopeViolationErr cwd home roots p) := by
  intro h
  refine ⟨?_, ?_, ?_, ?_, validationError_cases cwd home roots cap act params e h⟩
  all_goals simp [route_operation, h, List.mem_filter]

/-- Applying `log_operation_end` for an operation id that occurs only in
the freshly appended `in_progress` row rewrites exactly that row. -/
theorem applyLogEnd_append_fresh (log : List LogRow)
    (opId s0 status : String) (sr0 er0 sr er : Option String)
    (h : ∀ row ∈ log, row.opId ≠ opId) :
    applyLogEnd (log ++ [⟨opId, s0, sr0, er0⟩]) opId status sr er =
      log ++ [⟨opId, status, sr, er⟩] := by
  unfold applyLogEnd
  rw [List.map_append]
  congr 1
  · conv_rhs => rw [← List.map_id log]
    exact List.map_congr_left fun row hr => by simp [h row hr]
  · simp

/-- Claim C4 (counterexample): the claim exempts `prune_snapshots` from
pre-operation snapshotting, but the router's exclusion set is only
`{rollback, list_snapshots}`.  A routed `git prune_snapshots` (tier 2 by
the default rule) therefore attempts a snapshot, which fails with
`snapshot_skipped` because the operation carries no `path` parameter —
the whole operation is denied even though its capability call would have
succeeded, while the genuinely excluded `list_snapshots` with identical
parameters succeeds without any snapshot. -/
theorem route_prune_attempts_snapshot :
    (route_operation [] [] ["/tmp/Projects"] "git" "prune_snapshots"
      ⟨none, none, none, none, some "/tmp/Projects/repo", none⟩
      "c1" "op1" ⟨.snapOk "snapshot/edit-1", .execOk, false, false⟩
      ⟨[], [], []⟩).1.allowed = false ∧
    (route_operation [] [] ["/tmp/Projects"] "git" "prune_snapshots"
      ⟨none, none, none, none, some "/tmp/Projects/repo", none⟩
      "c1" "op1" ⟨.snapOk "snapshot/edit-1", .execOk, false, false⟩
      ⟨[], [], []⟩).1.error =
      some ⟨"snapshot_skipped", false, .noDetails⟩ ∧
    (route_operation [] [] ["/tmp/Projects"] "git" "list_snapshots"
      ⟨none, none, none, none, some "/tmp/Projects/repo", none⟩
      "c1" "op2" ⟨.snapOk "snapshot/edit-1", .execOk, false, false⟩
      ⟨[], [], []⟩).1.allowed = true := by decide

/-- Claim C4 (amended): for every routed operation of tier 1/2 whose
action is not `git rollback` or `git list_snapshots` (`prune_snapshots`
is NOT excluded), the broker runs the snapshot step before the
capability; a snapshot failure propagates as the operation's error with
a `failed` terminal row; and the terminal row carries a non-null
`snapshot_ref` iff the snapshot step succeeded AND the capability call
completed (on failed/timeout terminal rows the row's `snapshot_ref` is
overwritten with NULL). -/
theorem route_snapshot_behavior
    (cwd home : List (List Char)) (roots : List String)
    (cap act : String) (params : Params) (chatId opId : String)
    (o : Oracle) (st : BrokerState) :
    validationError cwd home roots cap act params = none →
    (∀ row ∈ st.execLog, row.opId ≠ opId) →
    needSnapshot cap act (classify_tier cap act (countFiles params)) = true →
    (∀ e, snapshotStep true params o = .error e →
      (route_operation cwd home roots cap act params chatId opId o st).1.allowed
        = false ∧
      (route_operation cwd home roots cap act params chatId opId o st).1.error
        = some e ∧
      (route_operation cwd home roots cap act params chatId opId o st).2.execLog
        = st.execLog ++ [⟨opId, "failed", none, some e.code⟩]) ∧
    (∃ row,
      (route_operation cwd home roots cap act params chatId opId o st).2.execLog
        = st.execLog ++ [row] ∧
      row.opId = opId ∧ row.status ≠ "in_progress" ∧
      (row.snapshotRef.isSome ↔
        (∃ ref, snapshotStep true params o = .ok (some ref)) ∧
          o.exec = .execOk)) := by
  intro hval hfresh hneed
  constructor
  · intro e hsnap
    refine ⟨?_, ?_, ?_⟩ <;>
      simp [route_operation, hval, hneed, hsnap, enqueueNotification,
        apply_ite BrokerState.execLog,
        applyLogEnd_append_fresh st.execLog opId "in_progress" "failed"
          none none none (some e.code) hfresh]
  · cases hsnap : snapshotStep true params o with
    | error e =>
      refine ⟨⟨opId, "failed", none, some e.code⟩, ?_, rfl, by simp, ?_⟩
      · simp [route_operation, hval, hneed, hsnap, enqueueNotification,
          apply_ite BrokerState.execLog,
          applyLogEnd_append_fresh st.execLog opId "in_progress" "failed"
            none none none (some e.code) hfresh]
      · simp [hsnap]
    | ok snapRef =>
      cases hexec : o.exec with
      | execOk =>
        refine ⟨⟨opId, "completed", snapRef, none⟩, ?_, rfl, by simp, ?_⟩
        · simp [route_operation, hval, hneed, hsnap, hexec,
            enqueueNotification, apply_ite BrokerState.execLog,
            applyLogEnd_append_fresh st.execLog opId "in_progress"
              "completed" none none snapRef none hfresh]
        · cases snapRef with
          | none =>
            -- with needSnapshot true, an `ok` outcome is always `some`
            exfalso
            unfold snapshotStep at hsnap
            rw [if_pos rfl] at hsnap
            repeat' split at hsnap
            all_goals simp at hsnap
          | some ref => simp [hsnap]

      | execTimeout =>
        refine ⟨⟨opId, "failed", none, some "timeout"⟩, ?_, rfl, by simp, ?_⟩
        · simp [route_operation, hval, hneed, hsnap, hexec,
            enqueueNotification, apply_ite BrokerState.execLog,
            applyLogEnd_append_fresh st.execLog opId "in_progress" "failed"
              none none none (some "timeout") hfresh]
        · simp [hexec]
      | execCapErr c r =>
        refine ⟨⟨opId, "failed", none, some c⟩, ?_, rfl, by simp, ?_⟩
        · simp [route_operation, hval, hneed, hsnap, hexec,
            enqueueNotification, apply_ite BrokerState.execLog,
            applyLogEnd_append_fresh st.execLog opId "in_progress" "failed"
              none none none (some c) hfresh]
        · simp [hexec]
      | execRaise =>
        refine ⟨⟨opId, "failed", none, some "execution_error"⟩, ?_, rfl,
          by simp, ?_⟩
        · simp [route_operation, hval, hneed, hsnap, hexec,
            enqueueNotification, apply_ite BrokerState.execLog,
            applyLogEnd_append_fresh st.execLog opId "in_progress" "failed"
              none none none (some "execution_error") hfresh]
        · simp [hexec]


/-- Claim C4 witness: the amended snapshot behavior applied to a
concrete tier-1 `fs apply_patch` operation whose snapshot and execution
both succeed. -/
theorem route_snapshot_behavior_witness :
    ∃ row,
      (route_operation [] [] ["/tmp/Projects"] "fs" "apply_patch"
        ⟨some "/tmp/Projects/a.txt", none, none, some "p", none, none⟩
        "c1" "op1" ⟨.snapOk "snapshot/edit-1", .execOk, false, false⟩
        ⟨[], [], []⟩).2.execLog = [] ++ [row] ∧
      row.opId = "op1" ∧ row.status ≠ "in_progress" ∧
      (row.snapshotRef.isSome ↔
        (∃ ref, snapshotStep true
          ⟨some "/tmp/Projects/a.txt", none, none, some "p", none, none⟩
          ⟨.snapOk "snapshot/edit-1", .execOk, false, false⟩ =
            .ok (some ref)) ∧
        Oracle.exec ⟨.snapOk "snapshot/edit-1", .execOk, false, false⟩ =
          .execOk) :=
  (route_snapshot_behavior [] [] ["/tmp/Projects"] "fs" "apply_patch"
    ⟨some "/tmp/Projects/a.txt", none, none, some "p", none, none⟩
    "c1" "op1" ⟨.snapOk "snapshot/edit-1", .execOk, false, false⟩
    ⟨[], [], []⟩ (by decide) (by intro row h; cases h) (by decide)).2

/-- Claim C2 witness: the denial theorem applied to a concrete `fs read`
request missing its `path` parameter. -/
theorem route_denied_writes_nothing_witness :
    (route_operation [] [] ["/tmp/Projects"] "fs" "read" ⟨none, none,
      none, none, none, none⟩ "c1" "op1"
      ⟨.snapOk "s", .execOk, true, false⟩ ⟨["x"], [], []⟩).1 =
      ⟨false, "op1", some 0, none,
        some ⟨"invalid_request", false, .actionOnly "read"⟩, false⟩ ∧
    (route_operation [] [] ["/tmp/Projects"] "fs" "read" ⟨none, none,
      none, none, none, none⟩ "c1" "op1"
      ⟨.snapOk "s", .execOk, true, false⟩ ⟨["x"], [], []⟩).2.execLog = [] ∧
    (route_operation [] [] ["/tmp/Projects"] "fs" "read" ⟨none, none,
      none, none, none, none⟩ "c1" "op1"
      ⟨.snapOk "s", .execOk, true, false⟩ ⟨["x"], [], []⟩).2.outbox = [] ∧
    "op1" ∉ (route_operation [] [] ["/tmp/Projects"] "fs" "read" ⟨none,
      none, none, none, none, none⟩ "c1" "op1"
      ⟨.snapOk "s", .execOk, true, false⟩ ⟨["x"], [], []⟩).2.startTimes := by
  have h := route_denied_writes_nothing [] [] ["/tmp/Projects"] "fs" "read"
    ⟨none, none, none, none, none, none⟩ "c1" "op1"
    ⟨.snapOk "s", .execOk, true, false⟩ ⟨["x"], [], []⟩
    ⟨"invalid_request", false, .actionOnly "read"⟩ (by decide)
  refine ⟨?_, h.2.1, h.2.2.1, h.2.2.2.1⟩
  rw [h.1]
  decide

/-- Claim C5 (counterexample): the claim states a timed-out operation's
`execution_log` row is updated to status `timeout`, but the router calls
`log_operation_end(status="failed", error_details={code: "timeout"})`:
the row's status is `failed`, not `timeout` (the schema's `timeout`
status value is never written). -/
theorem route_timeout_status_counterexample :
    (route_operation [] [] ["/tmp/Projects"] "fs" "read"
      ⟨some "/tmp/Projects/a.txt", none, none, none, none, none⟩
      "c1" "op1" ⟨.snapOk "s", .execTimeout, true, false⟩
      ⟨[], [], []⟩).2.execLog =
      [⟨"op1", "failed", none, some "timeout"⟩] ∧
    (∀ row ∈ (route_operation [] [] ["/tmp/Projects"] "fs" "read"
      ⟨some "/tmp/Projects/a.txt", none, none, none, none, none⟩
      "c1" "op1" ⟨.snapOk "s", .execTimeout, true, false⟩
      ⟨[], [], []⟩).2.execLog, row.status ≠ "timeout") ∧
    (route_operation [] [] ["/tmp/Projects"] "fs" "read"
      ⟨some "/tmp/Projects/a.txt", none, none, none, none, none⟩
      "c1" "op1" ⟨.snapOk "s", .execTimeout, true, false⟩
      ⟨[], [], []⟩).1.error = some ⟨"timeout", true, .noDetails⟩ := by
  have hlog : (route_operation [] [] ["/tmp/Projects"] "fs" "read"
      ⟨some "/tmp/Projects/a.txt", none, none, none, none, none⟩
      "c1" "op1" ⟨.snapOk "s", .execTimeout, true, false⟩
      ⟨[], [], []⟩).2.execLog =
      [⟨"op1", "failed", none, some "timeout"⟩] := by decide
  refine ⟨hlog, ?_, by decide⟩
  intro row hr
  rw [hlog] at hr
  have h2 : row = ⟨"op1", "failed", none, some "timeout"⟩ :=
    List.mem_singleton.mp hr
  subst h2
  decide

/-- Claim C5 (amended): when the capability call exceeds the broker
deadline, the operation's `execution_log` row is updated to the terminal
status `failed` (never left `in_progress`) with error code `timeout`,
and the broker returns `allowed = false` with error
`{code: "timeout", retryable: true}`. -/
theorem route_timeout_row
    (cwd home : List (List Char)) (roots : List String)
    (cap act : String) (params : Params) (chatId opId : String)
    (o : Oracle) (st : BrokerState) (snapRef : Option String) :
    validationError cwd home roots cap act params = none →
    (∀ row ∈ st.execLog, row.opId ≠ opId) →
    o.exec = .execTimeout →
    snapshotStep (needSnapshot cap act
      (classify_tier cap act (countFiles params))) params o = .ok snapRef →
    (route_operation cwd home roots cap act params chatId opId o st).1.allowed
      = false ∧
    (route_operation cwd home roots cap act params chatId opId o st).1.error
      = some ⟨"timeout", true, .noDetails⟩ ∧
    (route_operation cwd home roots cap act params chatId opId o st).2.execLog
      = st.execLog ++ [⟨opId, "failed", none, some "timeout"⟩] := by
  intro hval hfresh hexec hsnap
  refine ⟨?_, ?_, ?_⟩ <;>
    simp [route_operation, hval, hsnap, hexec, enqueueNotification,
      apply_ite BrokerState.execLog,
      applyLogEnd_append_fresh st.execLog opId "in_progress" "failed"
        none none none (some "timeout") hfresh]

/-- Claim C5 witness: the amended timeout behavior applied to a concrete
tier-0 `fs read` that times out. -/
theorem route_timeout_row_witness :
    (route_operation [] [] ["/tmp/Projects"] "fs" "read"
      ⟨some "/tmp/Projects/b.txt", none, none, none, none, none⟩
      "c2" "op2" ⟨.snapOk "s", .execTimeout, false, false⟩
      ⟨[], [], []⟩).2.execLog =
      [] ++ [⟨"op2", "failed", none, some "timeout"⟩] :=
  (route_timeout_row [] [] ["/tmp/Projects"] "fs" "read"
    ⟨some "/tmp/Projects/b.txt", none, none, none, none, none⟩
    "c2" "op2" ⟨.snapOk "s", .execTimeout, false, false⟩
    ⟨[], [], []⟩ none (by decide) (by intro row h; cases h) (by decide)
    (by rfl)).2.2

/-- Invariant of reachable outbox rows: the retry count never exceeds
`maxRetries`, pending rows still have retry budget, and sent rows carry
a send timestamp. -/
theorem outbox_reachable_invariant (pollInterval maxRetries : Nat)
    (hmax : 0 < maxRetries) :
    ∀ r : OutboxRow, OutboxReachable pollInterval maxRetries r →
      r.retryCount ≤ maxRetries ∧
      (r.status = "pending" → r.retryCount < maxRetries) ∧
      (r.status = "sent" → r.sentAt.isSome) := by
  intro r h
  induction h with
  | enqueued now =>
    refine ⟨Nat.zero_le _, fun _ => hmax, fun hs => ?_⟩
    simp [enqueue_notification_row] at hs
  | processed now invalidChat sendOk hr hpending ih =>
    obtain ⟨ih1, ih2, ih3⟩ := ih
    have hlt := ih2 hpending
    simp only [process_notification]
    split_ifs with h1 h2 h3
    · refine ⟨by simpa [mark_notification_failed] using hlt, ?_, ?_⟩ <;>
        intro hs <;> simp [mark_notification_failed] at hs
    · refine ⟨by simpa [mark_notification_sent] using le_of_lt hlt, ?_,
        fun _ => by simp [mark_notification_sent]⟩
      intro hs
      simp [mark_notification_sent] at hs
    · refine ⟨?_, fun _ => ?_, ?_⟩
      · simp only [schedule_notification_retry, mark_notification_failed]
        exact le_of_lt h3
      · simpa [schedule_notification_retry, mark_notification_failed]
          using h3
      · intro hs
        simp [schedule_notification_retry, mark_notification_failed] at hs
    · refine ⟨?_, ?_, ?_⟩
      · simp only [mark_notification_failed]
        exact hlt
      · intro hs
        simp [mark_notification_failed] at hs
      · intro hs
        simp [mark_notification_failed] at hs

/-- Claim C8: on a send failure the worker composes `mark_failed` (which
bumps `retry_count` to `r+1` and records error details) with, exactly
when `r+1 < maxRetries`, `schedule_retry(now + pollInterval^(r+1))`
back to pending; consequently reachable rows keep
`retry_count ≤ maxRetries` (for a worker configured with
`maxRetries > 0`), and sent rows have a non-null `sent_at`. -/
theorem notification_retry_discipline (pollInterval maxRetries : Nat) :
    (∀ (now : Nat) (r : OutboxRow),
      process_notification pollInterval maxRetries now false false r =
        (if r.retryCount + 1 < maxRetries then
          schedule_notification_retry now (pollInterval ^ (r.retryCount + 1))
            (mark_notification_failed "telegram send failed" r)
        else mark_notification_failed "telegram send failed" r) ∧
      (process_notification pollInterval maxRetries now false false
        r).retryCount = r.retryCount + 1 ∧
      (r.retryCount + 1 < maxRetries →
        (process_notification pollInterval maxRetries now false false
          r).status = "pending" ∧
        (process_notification pollInterval maxRetries now false false
          r).createdAt = now + pollInterval ^ (r.retryCount + 1)) ∧
      (¬ r.retryCount + 1 < maxRetries →
        (process_notification pollInterval maxRetries now false false
          r).status = "failed")) ∧
    (0 < maxRetries → ∀ r : OutboxRow,
      OutboxReachable pollInterval maxRetries r →
      r.retryCount ≤ maxRetries ∧ (r.status = "sent" → r.sentAt.isSome)) := by
  constructor
  · intro now r
    refine ⟨by simp [process_notification], ?_, ?_, ?_⟩
    · by_cases h : r.retryCount + 1 < maxRetries <;>
        simp [process_notification, h, mark_notification_failed,
          schedule_notification_retry]
    · intro h
      constructor <;>
        simp [process_notification, h, mark_notification_failed,
          schedule_notification_retry]
    · intro h
      simp [process_notification, h, mark_notification_failed]
  · intro hmax r hreach
    have h := outbox_reachable_invariant pollInterval maxRetries hmax r hreach
    exact ⟨h.1, h.2.2⟩

/-- Claim C8 witness: a freshly enqueued row whose first send attempt
fails is rescheduled to pending with the exponential back-off delay, and
its retry count stays within the bound. -/
theorem notification_retry_discipline_witness :
    (process_notification 5 3 100 false false
      (enqueue_notification_row 50)).status = "pending" ∧
    (process_notification 5 3 100 false false
      (enqueue_notification_row 50)).createdAt = 100 + 5 ^ (0 + 1) ∧
    (process_notification 5 3 100 false false
      (enqueue_notification_row 50)).retryCount ≤ 3 :=
  ⟨(((notification_retry_discipline 5 3).1 100
      (enqueue_notification_row 50)).2.2.1 (by decide)).1,
   (((notification_retry_discipline 5 3).1 100
      (enqueue_notification_row 50)).2.2.1 (by decide)).2,
   ((notification_retry_discipline 5 3).2 (by decide) _
      (.processed 100 false false (.enqueued 50) rfl)).1⟩

/-- Claim C9: migrations are processed in lexical name order with
`schema_migrations.sql` ignored; an already-recorded migration whose
recomputed checksum matches is skipped with no state change; a checksum
mismatch aborts with `migration_tampered`, leaving the database exactly
as it was after the migrations preceding the tampered one (none of the
remaining migrations is applied). -/
theorem migration_tamper_detection (hash : String → String) (now : Nat) :
    (∀ (name content : String) (rest : List (String × String))
        (st : MigrateState) (c : String),
      lookupChecksum st.schemaRows name = some c → hash content = c →
      apply_migrations_go hash now ((name, content) :: rest) st =
        apply_migrations_go hash now rest st) ∧
    (∀ (migs : List (String × String)) (st : MigrateState)
        (e : TamperError) (stF : MigrateState),
      apply_migrations_go hash now migs st = .error (e, stF) →
      lookupChecksum stF.schemaRows e.name = some e.expected ∧
      e.got ≠ e.expected ∧
      (∃ content, (e.name, content) ∈ migs ∧ e.got = hash content) ∧
      (∃ pre suf content, migs = pre ++ (e.name, content) :: suf ∧
        apply_migrations_go hash now pre st = .ok stF)) ∧
    (∀ files : List (String × String),
      List.Sorted migLe (discover_migrations files) ∧
      ∀ f ∈ discover_migrations files,
        f.1 ≠ "schema_migrations.sql" ∧ f.1.endsWith ".sql" = true) := by
  refine ⟨?_, ?_, ?_⟩
  · intro name content rest st c hlook hhash
    simp [apply_migrations_go, hlook, hhash]
  · intro migs
    induction migs with
    | nil =>
      intro st e stF h
      simp [apply_migrations_go] at h
    | cons head rest ih =>
      obtain ⟨name, content⟩ := head
      intro st e stF h
      simp only [apply_migrations_go] at h
      cases hlook : lookupChecksum st.schemaRows name with
      | some c =>
        rw [hlook] at h
        dsimp only at h
        by_cases hh : hash content = c
        · rw [if_pos hh] at h
          obtain ⟨h1, h2, ⟨content1, hc1, hc2⟩,
            pre1, suf1, content2, heq, hpre⟩ := ih st e stF h
          refine ⟨h1, h2, ⟨content1, List.mem_cons_of_mem _ hc1, hc2⟩,
            (name, content) :: pre1, suf1, content2, by simp [heq], ?_⟩
          simpa [apply_migrations_go, hlook, hh] using hpre
        · rw [if_neg hh] at h
          injection h with h'
          injection h' with he hst
          subst he
          subst hst
          exact ⟨hlook, fun hc => hh hc, ⟨content, List.mem_cons_self _ _, rfl⟩,
            [], rest, content, rfl, rfl⟩
      | none =>
        rw [hlook] at h
        dsimp only at h
        obtain ⟨h1, h2, ⟨content1, hc1, hc2⟩,
          pre1, suf1, content2, heq, hpre⟩ := ih _ e stF h
        refine ⟨h1, h2, ⟨content1, List.mem_cons_of_mem _ hc1, hc2⟩,
          (name, content) :: pre1, suf1, content2, by simp [heq], ?_⟩
        simpa [apply_migrations_go, hlook] using hpre
  · intro files
    constructor
    · exact (List.sorted_insertionSort migLe _).filter _
    · intro f hf
      rw [discover_migrations, List.mem_filter] at hf
      obtain ⟨hf1, hf2⟩ := hf
      have hf3 : f ∈ (files.filter (fun f => f.1.endsWith ".sql")) :=
        (List.perm_insertionSort migLe _).mem_iff.mp hf1
      rw [List.mem_filter] at hf3
      exact ⟨by simpa using hf2, hf3.2⟩

/-- Claim C9 witness: a concrete tampered migration (stored checksum
`oldsum`, current content hashing to `newsum`) aborts with the expected
`migration_tampered` payload and no state change. -/
theorem migration_tamper_detection_witness :
    lookupChecksum [⟨"001_init.sql", "oldsum", 0⟩] "001_init.sql" =
      some "oldsum" ∧
    "newsum" ≠ "oldsum" ∧
    (∃ content, ("001_init.sql", content) ∈ [("001_init.sql", "newsum")] ∧
      "newsum" = content) ∧
    (∃ pre suf content,
      [("001_init.sql", "newsum")] = pre ++ ("001_init.sql", content) :: suf ∧
      apply_migrations_go (fun s => s) 7 pre
        ⟨[⟨"001_init.sql", "oldsum", 0⟩], []⟩ =
        .ok ⟨[⟨"001_init.sql", "oldsum", 0⟩], []⟩) :=
  (migration_tamper_detection (fun s => s) 7).2.1
    [("001_init.sql", "newsum")] ⟨[⟨"001_init.sql", "oldsum", 0⟩], []⟩
    ⟨"001_init.sql", "oldsum", "newsum"⟩
    ⟨[⟨"001_init.sql", "oldsum", 0⟩], []⟩ (by rfl)

/-- `startsWithL` as list decomposition. -/
theorem startsWithL_eq (pre l : List Char) :
    startsWithL pre l = true ↔ ∃ t, l = pre ++ t := by
  induction pre generalizing l with
  | nil =>
    simp [startsWithL, List.isPrefixOf]
  | cons a as ih =>
    cases l with
    | nil => simp [startsWithL, List.isPrefixOf]
    | cons b bs =>
      simp only [startsWithL, List.isPrefixOf, Bool.and_eq_true,
        beq_iff_eq] at *
      constructor
      · rintro ⟨rfl, h⟩
        obtain ⟨t, rfl⟩ := (ih bs).mp h
        exact ⟨t, rfl⟩
      · rintro ⟨t, ht⟩
        injection ht with h1 h2
        exact ⟨h1.symm, (ih bs).mpr ⟨t, h2⟩⟩

/-- `wfKeepLine` as a decomposition into body and terminator. -/
theorem wfKeepLine_iff (l : List Char) :
    wfKeepLine l = true ↔ ∃ body, l = body ++ ['\n'] ∧ '\n' ∉ body := by
  constructor
  · intro h
    simp only [wfKeepLine, Bool.and_eq_true] at h
    obtain ⟨⟨hne, hlast⟩, hall⟩ := h
    have hne' : l ≠ [] := by
      cases l
      · simp at hne
      · simp
    refine ⟨l.dropLast, ?_, ?_⟩
    · have hd := List.dropLast_append_getLast hne'
      have hg : l.getLast? = some (l.getLast hne') :=
        List.getLast?_eq_getLast l hne'
      rw [hg, beq_iff_eq] at hlast
      injection hlast with hlast
      rw [hlast] at hd
      exact hd.symm
    · intro hmem
      have := List.all_eq_true.mp hall _ hmem
      simp at this
  · rintro ⟨body, rfl, hb⟩
    simp [wfKeepLine, List.all_eq_true]
    intro c hc
    exact fun he => hb (he ▸ hc)

theorem splitKeepAux_append (body rest acc : List Char)
    (hb : '\n' ∉ body) :
    splitKeepAux (body ++ '\n' :: rest) acc =
      (acc.reverse ++ (body ++ ['\n'])) :: splitKeepAux rest [] := by
  induction body generalizing acc with
  | nil => simp [splitKeepAux]
  | cons c cs ih =>
    have hc : ¬ c = '\n' := fun he => hb (he ▸ List.mem_cons_self c cs)
    have hcs : '\n' ∉ cs := fun hm => hb (List.mem_cons_of_mem c hm)
    simp only [List.cons_append, splitKeepAux, if_neg hc]
    rw [List.append_eq, ih (c :: acc) hcs]
    simp

theorem splitLinesKeep_flatten (lines : List (List Char))
    (h : ∀ l ∈ lines, wfKeepLine l = true) :
    splitLinesKeep lines.flatten = lines := by
  induction lines with
  | nil => rfl
  | cons l ls ih =>
    obtain ⟨body, rfl, hb⟩ := (wfKeepLine_iff l).mp (h l (by simp))
    show splitKeepAux ((body ++ ['\n']) ++ ls.flatten) [] = _
    rw [List.append_assoc, List.singleton_append,
      splitKeepAux_append body _ [] hb]
    have ih2 : splitKeepAux ls.flatten [] = ls :=
      ih (fun l hl => h l (by simp [hl]))
    rw [ih2]
    simp

theorem splitNoKeepAux_append (body rest acc : List Char)
    (hb : '\n' ∉ body) :
    splitNoKeepAux (body ++ '\n' :: rest) acc =
      (acc.reverse ++ body) :: splitNoKeepAux rest [] := by
  induction body generalizing acc with
  | nil => simp [splitNoKeepAux]
  | cons c cs ih =>
    have hc : ¬ c = '\n' := fun he => hb (he ▸ List.mem_cons_self c cs)
    have hcs : '\n' ∉ cs := fun hm => hb (List.mem_cons_of_mem c hm)
    simp only [List.cons_append, splitNoKeepAux, if_neg hc]
    rw [List.append_eq, ih (c :: acc) hcs]
    simp

theorem splitLines_flatten (lines : List (List Char))
    (h : ∀ l ∈ lines, wfKeepLine l = true) :
    splitLines lines.flatten = lines.map List.dropLast := by
  induction lines with
  | nil => rfl
  | cons l ls ih =>
    obtain ⟨body, hl, hb⟩ := (wfKeepLine_iff l).mp (h l (by simp))
    subst hl
    show splitNoKeepAux ((body ++ ['\n']) ++ ls.flatten) [] = _
    rw [List.append_assoc, List.singleton_append,
      splitNoKeepAux_append body _ [] hb]
    have ih2 : splitNoKeepAux ls.flatten [] = ls.map List.dropLast :=
      ih (fun l hl => h l (by simp [hl]))
    rw [ih2]
    simp

theorem take_succ_decomp (f : List (List Char)) (si k : Nat) (s : List Char)
    (l2 : List (List Char))
    (h : (f.drop si).take (k + 1) = s :: l2) :
    f[si]? = some s ∧ (f.drop (si + 1)).take k = l2 := by
  cases hd : f.drop si with
  | nil => rw [hd] at h; simp at h
  | cons a t =>
    rw [hd] at h
    simp only [List.take_succ_cons] at h
    injection h with h1 h2
    subst h1
    have ht : f.drop (si + 1) = t := by
      have h3 := List.drop_drop 1 si f
      rw [hd] at h3
      simpa [Nat.add_comm] using h3.symm
    constructor
    · have h4 := List.getElem?_drop f si 0
      rw [hd] at h4
      simpa using h4.symm
    · rw [ht]
      exact h2
theorem fb_loop_body (f : List (List Char)) (ops : List DiffOp)
    (rest : List (List Char)) (si : Nat) (res : List (List Char))
    (hmatch : (f.drop si).take (opsOld ops).length = opsOld ops) :
    fb_loop f (ops.map renderOp ++ rest) true si res =
      fb_loop f rest true (si + (opsOld ops).length) (res ++ opsNew ops) := by
  induction ops generalizing si res with
  | nil => simp [opsOld, opsNew]
  | cons op t ih =>
    cases op with
    | ctx s =>
      simp only [opsOld, List.length_cons] at hmatch
      obtain ⟨hget, htail⟩ := take_succ_decomp f si _ s (opsOld t) hmatch
      show fb_loop f ((' ' :: s) :: (t.map renderOp ++ rest)) true si res = _
      rw [fb_loop]
      simp only [startsWithL, List.isPrefixOf, hget]
      norm_num
      rw [ih (si + 1) (res ++ [s]) htail]
      simp [opsOld, opsNew, Nat.add_assoc, Nat.add_comm 1]
    | del s =>
      simp only [opsOld, List.length_cons] at hmatch
      obtain ⟨hget, htail⟩ := take_succ_decomp f si _ s (opsOld t) hmatch
      show fb_loop f (('-' :: s) :: (t.map renderOp ++ rest)) true si res = _
      rw [fb_loop]
      simp only [startsWithL, List.isPrefixOf, hget]
      norm_num
      rw [ih (si + 1) res htail]
      simp [opsOld, opsNew, Nat.add_assoc, Nat.add_comm 1]
    | add s =>
      simp only [opsOld] at hmatch
      show fb_loop f (('+' :: s) :: (t.map renderOp ++ rest)) true si res = _
      rw [fb_loop]
      simp +decide [startsWithL, chars, List.isPrefixOf]
      rw [ih si (res ++ [s]) hmatch]
      simp [opsOld, opsNew]
theorem isPrefixOf_decomp {α : Type} [BEq α] [LawfulBEq α]
    (pre l : List α) : pre.isPrefixOf l = true ↔ ∃ t, l = pre ++ t := by
  induction pre generalizing l with
  | nil => simp [List.isPrefixOf]
  | cons a as ih =>
    cases l with
    | nil => simp [List.isPrefixOf]
    | cons b bs =>
      simp only [List.isPrefixOf, Bool.and_eq_true, beq_iff_eq]
      constructor
      · rintro ⟨rfl, h⟩
        obtain ⟨t, rfl⟩ := (ih bs).mp h
        exact ⟨t, rfl⟩
      · rintro ⟨t, ht⟩
        injection ht with h1 h2
        exact ⟨h1.symm, (ih bs).mpr ⟨t, h2⟩⟩

theorem fb_loop_flag (f : List (List Char)) (hs : List Hunk)
    (ls : List (List Char)) (h : rendersHunks hs ls = true) (si : Nat)
    (res : List (List Char)) :
    fb_loop f ls true si res = fb_loop f ls false si res := by
  cases hs with
  | nil =>
    cases ls with
    | nil => rfl
    | cons l t => simp [rendersHunks] at h
  | cons hk t =>
    cases ls with
    | nil => simp [rendersHunks] at h
    | cons hl ls' =>
      simp only [rendersHunks, Bool.and_eq_true] at h
      obtain ⟨⟨⟨hparse, hat⟩, hpre⟩, hrest⟩ := h
      rw [fb_loop.eq_def]
      conv_rhs => rw [fb_loop.eq_def]
      simp [hat]

theorem fb_loop_hunks (f : List (List Char)) :
    ∀ (hs : List Hunk) (ls : List (List Char)) (pos : Nat)
      (res : List (List Char)),
      rendersHunks hs ls = true → validFrom f pos hs = true →
      fb_loop f ls false pos res =
        .ok (endPos pos hs, res ++ specBody f pos hs) := by
  intro hs
  induction hs with
  | nil =>
    intro ls pos res hr _hv
    cases ls with
    | nil => simp [fb_loop, endPos, specBody]
    | cons l t => simp [rendersHunks] at hr
  | cons hk t ih =>
    intro ls pos res hr hv
    cases ls with
    | nil => simp [rendersHunks] at hr
    | cons hl ls' =>
      simp only [rendersHunks, Bool.and_eq_true, decide_eq_true_eq] at hr
      obtain ⟨⟨⟨hparse, hat⟩, hpre⟩, hrest⟩ := hr
      simp only [validFrom, Bool.and_eq_true, decide_eq_true_eq] at hv
      obtain ⟨⟨⟨hp1, hp2⟩, hmatch⟩, hrem⟩ := hv
      obtain ⟨ls'', rfl⟩ := (isPrefixOf_decomp _ _).mp hpre
      rw [List.drop_left] at hrest
      obtain ⟨tl, hhl⟩ := (startsWithL_eq _ _).mp hat
      subst hhl
      rw [fb_loop.eq_def]
      have hne1 : startsWithL (chars "--- ") (chars "@@" ++ tl) = false := by
        simp +decide [startsWithL, chars, List.isPrefixOf]
      have hne2 : startsWithL (chars "+++ ") (chars "@@" ++ tl) = false := by
        simp +decide [startsWithL, chars, List.isPrefixOf]
      have hat2 : startsWithL (chars "@@") (chars "@@" ++ tl) = true :=
        (startsWithL_eq _ _).mpr ⟨tl, rfl⟩
      simp only [hne1, hne2, hat2, hparse]
      norm_num
      rw [Nat.min_eq_left hp2, Nat.max_eq_right hp1, List.drop_take]
      rw [fb_loop_body f hk.ops ls'' (hk.oldStart - 1) _ hmatch]
      rw [fb_loop_flag f t ls'' hrest]
      rw [ih ls'' _ _ hrest hrem]
      simp [endPos, specBody, List.append_assoc]
theorem fb_loop_skip_header (f : List (List Char)) (l : List Char)
    (rest : List (List Char)) (si : Nat) (res : List (List Char))
    (h : startsWithL (chars "--- ") l = true ∨
      startsWithL (chars "+++ ") l = true) :
    fb_loop f (l :: rest) false si res = fb_loop f rest false si res := by
  rw [fb_loop.eq_def]
  rcases h with h | h <;> simp [h]

theorem countAdded_cons (l : List Char) (ls : List (List Char)) :
    countAdded (l :: ls) =
      (if startsWithL ['+'] l && ! startsWithL (chars "+++") l then 1 else 0)
        + countAdded ls := by
  simp only [countAdded, List.filter_cons]
  split <;> simp [Nat.add_comm]

theorem countRemoved_cons (l : List Char) (ls : List (List Char)) :
    countRemoved (l :: ls) =
      (if startsWithL ['-'] l && ! startsWithL (chars "---") l then 1 else 0)
        + countRemoved ls := by
  simp only [countRemoved, List.filter_cons]
  split <;> simp [Nat.add_comm]

theorem renderOp_dropLast_preds (op : DiffOp) (hop : opSafe op = true) :
    (startsWithL ['+'] (renderOp op).dropLast &&
      ! startsWithL (chars "+++") (renderOp op).dropLast) = isAdd op ∧
    (startsWithL ['-'] (renderOp op).dropLast &&
      ! startsWithL (chars "---") (renderOp op).dropLast) = isDel op := by
  cases op with
  | ctx s =>
    have hs : s ≠ [] := by simpa [opSafe] using hop
    constructor <;>
      simp +decide [renderOp, List.dropLast_cons_of_ne_nil hs, startsWithL,
        chars, List.isPrefixOf, isAdd, isDel]
  | del s =>
    simp only [opSafe, Bool.and_eq_true, Bool.not_eq_true'] at hop
    obtain ⟨hs0, h2⟩ := hop
    have hs : s ≠ [] := by simpa using hs0
    have hx : List.isPrefixOf ['-', '-'] s.dropLast = false := by
      cases hcase : startsWithL ['-', '-'] s.dropLast with
      | false => exact hcase
      | true =>
        exfalso
        obtain ⟨u, hu⟩ := (startsWithL_eq _ _).mp hcase
        have hgl := List.dropLast_append_getLast hs
        rw [hu] at hgl
        have hcon : startsWithL ['-', '-'] s = true :=
          (startsWithL_eq _ _).mpr
            ⟨u ++ [s.getLast hs], by rw [List.append_assoc] at hgl; exact hgl.symm⟩
        rw [hcon] at h2
        simp at h2
    constructor
    · simp +decide [renderOp, List.dropLast_cons_of_ne_nil hs, startsWithL,
        chars, List.isPrefixOf, isAdd]
    · simp +decide [renderOp, List.dropLast_cons_of_ne_nil hs, startsWithL,
        chars, List.isPrefixOf, isDel, hx]
  | add s =>
    simp only [opSafe, Bool.and_eq_true, Bool.not_eq_true'] at hop
    obtain ⟨hs0, h2⟩ := hop
    have hs : s ≠ [] := by simpa using hs0
    have hx : List.isPrefixOf ['+', '+'] s.dropLast = false := by
      cases hcase : startsWithL ['+', '+'] s.dropLast with
      | false => exact hcase
      | true =>
        exfalso
        obtain ⟨u, hu⟩ := (startsWithL_eq _ _).mp hcase
        have hgl := List.dropLast_append_getLast hs
        rw [hu] at hgl
        have hcon : startsWithL ['+', '+'] s = true :=
          (startsWithL_eq _ _).mpr
            ⟨u ++ [s.getLast hs], by rw [List.append_assoc] at hgl; exact hgl.symm⟩
        rw [hcon] at h2
        simp at h2
    constructor
    · simp +decide [renderOp, List.dropLast_cons_of_ne_nil hs, startsWithL,
        chars, List.isPrefixOf, isAdd, hx]
    · simp +decide [renderOp, List.dropLast_cons_of_ne_nil hs, startsWithL,
        chars, List.isPrefixOf, isDel]
theorem counts_render_append (ops : List DiffOp) (rest : List (List Char))
    (hsafe : ∀ op ∈ ops, opSafe op = true) :
    countAdded ((ops.map renderOp ++ rest).map List.dropLast) =
      (ops.filter isAdd).length +
        countAdded (rest.map List.dropLast) ∧
    countRemoved ((ops.map renderOp ++ rest).map List.dropLast) =
      (ops.filter isDel).length +
        countRemoved (rest.map List.dropLast) := by
  induction ops with
  | nil => simp
  | cons op t ih =>
    have hop := hsafe op (List.mem_cons_self op t)
    have iht := ih (fun o ho => hsafe o (List.mem_cons_of_mem op ho))
    obtain ⟨hadd, hdel⟩ := renderOp_dropLast_preds op hop
    simp only [List.map_cons, List.cons_append, countAdded_cons,
      countRemoved_cons, hadd, hdel, iht.1, iht.2, List.filter_cons]
    constructor
    · cases hA : isAdd op <;> (simp; try omega)
    · cases hD : isDel op <;> (simp; try omega)

theorem header_dropLast_preds (tl : List Char) :
    (startsWithL ['+'] (chars "@@" ++ tl).dropLast &&
      ! startsWithL (chars "+++") (chars "@@" ++ tl).dropLast) = false ∧
    (startsWithL ['-'] (chars "@@" ++ tl).dropLast &&
      ! startsWithL (chars "---") (chars "@@" ++ tl).dropLast) = false := by
  cases tl with
  | nil => constructor <;> simp +decide [startsWithL, chars, List.isPrefixOf]
  | cons c cs =>
    have h1 : (chars "@@" ++ c :: cs).dropLast =
        '@' :: ('@' :: c :: cs).dropLast := by
      show ('@' :: '@' :: c :: cs).dropLast = _
      exact List.dropLast_cons_of_ne_nil (by simp)
    rw [h1]
    constructor <;> simp +decide [startsWithL, chars, List.isPrefixOf]

theorem counts_of_renders (hs : List Hunk) :
    ∀ ls : List (List Char), rendersHunks hs ls = true →
    (∀ h ∈ hs, ∀ op ∈ h.ops, opSafe op = true) →
    countAdded (ls.map List.dropLast) = addsOf hs ∧
    countRemoved (ls.map List.dropLast) = delsOf hs := by
  induction hs with
  | nil =>
    intro ls hr _
    cases ls with
    | nil => simp [countAdded, countRemoved, addsOf, delsOf]
    | cons l t => simp [rendersHunks] at hr
  | cons hk t ih =>
    intro ls hr hsafe
    cases ls with
    | nil => simp [rendersHunks] at hr
    | cons hl ls' =>
      simp only [rendersHunks, Bool.and_eq_true, decide_eq_true_eq] at hr
      obtain ⟨⟨⟨_hparse, hat⟩, hpre⟩, hrest⟩ := hr
      obtain ⟨ls'', rfl⟩ := (isPrefixOf_decomp _ _).mp hpre
      rw [List.drop_left] at hrest
      obtain ⟨tl, rfl⟩ := (startsWithL_eq _ _).mp hat
      have hhd := header_dropLast_preds tl
      have hseg := counts_render_append hk.ops ls''
        (fun op ho => hsafe hk (List.mem_cons_self hk t) op ho)
      have iht := ih ls'' hrest
        (fun h hh op ho => hsafe h (List.mem_cons_of_mem hk hh) op ho)
      simp only [List.map_cons, List.map_append, countAdded_cons,
        countRemoved_cons, hhd.1, hhd.2, addsOf, delsOf] at *
      rw [← List.map_append] at hseg ⊢
      simp only [hseg.1, hseg.2, iht.1, iht.2]
      simp [addsOf, delsOf]
theorem normalize_patch_line_other (filename line : List Char)
    (h1 : startsWithL (chars "--- ") line = false)
    (h2 : startsWithL (chars "+++ ") line = false) :
    normalize_patch_line filename line = line := by
  simp [normalize_patch_line, h1, h2]

theorem dropWhile_wf_tail (p : Char → Bool) (hp : p '\n' = true)
    (y : List Char) (hy : '\n' ∉ y) :
    (y ++ ['\n']).dropWhile p = [] ∨
    ∃ b2, (y ++ ['\n']).dropWhile p = b2 ++ ['\n'] ∧ '\n' ∉ b2 := by
  induction y with
  | nil => left; simp [List.dropWhile, hp]
  | cons c cs ih =>
    by_cases hc : p c = true
    · simpa [List.dropWhile, hc] using
        ih (fun hm => hy (List.mem_cons_of_mem c hm))
    · right
      refine ⟨c :: cs, ?_, hy⟩
      simp [List.dropWhile, hc]

theorem normalize_header_shape (filename line pre : List Char)
    (hpre4 : pre.length = 4) (hnl : '\n' ∉ pre)
    (hstart : startsWithL pre line = true)
    (hheader : startsWithL (chars "--- ") line = true ∨
      startsWithL (chars "+++ ") line = true)
    (hw : wfKeepLine line = true) :
    ∃ suffix, normalize_patch_line filename line =
      pre ++ filename ++ suffix ++ ['\n'] ∧ '\n' ∉ suffix := by
  obtain ⟨body, hbody, hnb⟩ := (wfKeepLine_iff line).mp hw
  obtain ⟨t, hpt⟩ := (startsWithL_eq _ _).mp hstart
  have ht : t ≠ [] := by
    rintro rfl
    rw [List.append_nil] at hpt
    have hl : pre.getLast? = some '\n' := by
      rw [← hpt, hbody]
      simp
    exact hnl (List.mem_of_mem_getLast? hl)
  have hlen : 4 ≤ body.length := by
    have h1 : line.length = body.length + 1 := by rw [hbody]; simp
    have h2 : line.length = 4 + t.length := by rw [hpt]; simp [hpre4]
    have h3 : t.length ≠ 0 := fun h0 => ht (List.eq_nil_of_length_eq_zero h0)
    omega
  have htake : line.take 4 = pre := by
    rw [hpt, ← hpre4]
    exact List.take_left pre t
  have hdrop : line.drop 4 = body.drop 4 ++ ['\n'] := by
    rw [hbody]
    exact List.drop_append_of_le_length hlen
  have hnb4 : '\n' ∉ body.drop 4 := fun hm => hnb (List.mem_of_mem_drop hm)
  unfold normalize_patch_line
  rw [if_pos hheader]
  dsimp only
  rw [hdrop]
  rcases dropWhile_wf_tail (fun c => decide (c ≠ '\t')) (by decide)
      (body.drop 4) hnb4 with hcase | ⟨b2, hcase, hb2⟩
  · rw [hcase]
    refine ⟨[], ?_, by simp⟩
    rw [htake]
    simp
  · rw [hcase]
    refine ⟨b2, ?_, hb2⟩
    rw [htake]
    simp
theorem isSubstrOf_here (pat t : List Char) :
    isSubstrOf pat (pat ++ t) = true := by
  cases pat with
  | nil =>
    cases t with
    | nil => rfl
    | cons c cs => simp [isSubstrOf, List.isPrefixOf]
  | cons p ps =>
    show (List.isPrefixOf (p :: ps) ((p :: ps) ++ t) || _) = true
    rw [(isPrefixOf_decomp (p :: ps) ((p :: ps) ++ t)).mpr ⟨t, rfl⟩]
    simp

theorem isSubstrOf_append_right (pat l1 l2 : List Char)
    (h : isSubstrOf pat l2 = true) : isSubstrOf pat (l1 ++ l2) = true := by
  induction l1 with
  | nil => simpa using h
  | cons c cs ih =>
    show (List.isPrefixOf pat (c :: (cs ++ l2)) || isSubstrOf pat (cs ++ l2))
      = true
    rw [ih]
    simp

theorem startsWith_wf_decomp (pre line : List Char) (hnl : '\n' ∉ pre)
    (hs : startsWithL pre line = true) (hw : wfKeepLine line = true) :
    ∃ t, line = pre ++ t ∧ t ≠ [] := by
  obtain ⟨t, hpt⟩ := (startsWithL_eq _ _).mp hs
  refine ⟨t, hpt, ?_⟩
  rintro rfl
  rw [List.append_nil] at hpt
  obtain ⟨body, hbody, _⟩ := (wfKeepLine_iff line).mp hw
  have hl : pre.getLast? = some '\n' := by
    rw [← hpt, hbody]
    simp
  exact hnl (List.mem_of_mem_getLast? hl)
theorem dash_header_preds (t : List Char) (ht : t ≠ []) :
    (startsWithL ['+'] (chars "--- " ++ t).dropLast &&
      ! startsWithL (chars "+++") (chars "--- " ++ t).dropLast) = false ∧
    (startsWithL ['-'] (chars "--- " ++ t).dropLast &&
      ! startsWithL (chars "---") (chars "--- " ++ t).dropLast) = false := by
  rw [List.dropLast_append_of_ne_nil _ ht]
  constructor
  · have h1 : startsWithL ['+'] (chars "--- " ++ t.dropLast) = false := by
      simp +decide [startsWithL, chars, List.isPrefixOf]
    simp [h1]
  · have h3 : startsWithL (chars "---") (chars "--- " ++ t.dropLast)
        = true :=
      (startsWithL_eq _ _).mpr ⟨' ' :: t.dropLast, rfl⟩
    simp [h3]

theorem plus_header_preds (t : List Char) (ht : t ≠ []) :
    (startsWithL ['+'] (chars "+++ " ++ t).dropLast &&
      ! startsWithL (chars "+++") (chars "+++ " ++ t).dropLast) = false ∧
    (startsWithL ['-'] (chars "+++ " ++ t).dropLast &&
      ! startsWithL (chars "---") (chars "+++ " ++ t).dropLast) = false := by
  rw [List.dropLast_append_of_ne_nil _ ht]
  constructor
  · have h3 : startsWithL (chars "+++") (chars "+++ " ++ t.dropLast)
        = true :=
      (startsWithL_eq _ _).mpr ⟨' ' :: t.dropLast, rfl⟩
    simp [h3]
  · have h1 : startsWithL ['-'] (chars "+++ " ++ t.dropLast) = false := by
      simp +decide [startsWithL, chars, List.isPrefixOf]
    simp [h1]
/-- Under the validation conditions, `apply_patch` on a patch
`hdr1 :: hdr2 :: body` is fully determined by `path` and `body`: the
header lines are rewritten to the target basename and then skipped by
the fallback, so the names they carry never matter. -/
theorem apply_patch_headers_irrelevant (f : List (List Char))
    (hdr1 hdr2 : List Char) (body : List (List Char))
    (path : List Char) (maxKb : Nat)
    (hwf : ∀ l ∈ hdr1 :: hdr2 :: body, wfKeepLine l = true)
    (hh1 : startsWithL (chars "--- ") hdr1 = true)
    (hh2 : startsWithL (chars "+++ ") hdr2 = true)
    (hbodyhdr : ∀ l ∈ body, startsWithL (chars "--- ") l = false ∧
      startsWithL (chars "+++ ") l = false)
    (hnn : '\n' ∉ pyBasename path)
    (hsz : ¬ utf8Len (hdr1 :: hdr2 :: body).flatten > maxKb * 1024)
    (hsc : ¬ count_patch_source_files (hdr1 :: hdr2 :: body).flatten > 1)
    (hdn : uses_dev_null_headers (hdr1 :: hdr2 :: body).flatten = false)
    (hat : isSubstrOf (chars "@@") (hdr1 :: hdr2 :: body).flatten = true) :
    apply_patch (some f) path (hdr1 :: hdr2 :: body).flatten maxKb =
      (match apply_patch_fallback f body with
       | .error e => (.error e, some f)
       | .ok nl =>
         (.ok ⟨path, countAdded (body.map List.dropLast),
           countRemoved (body.map List.dropLast)⟩, some nl)) := by
  obtain ⟨t1, ht1, ht1n⟩ := startsWith_wf_decomp _ hdr1 (by decide) hh1
    (hwf hdr1 (by simp))
  obtain ⟨t2, ht2, ht2n⟩ := startsWith_wf_decomp _ hdr2 (by decide) hh2
    (hwf hdr2 (by simp))
  have hm1 : isSubstrOf (chars "---") (hdr1 :: hdr2 :: body).flatten
      = true := by
    rw [List.flatten_cons, ht1]
    show isSubstrOf (chars "---")
      ((chars "---" ++ (' ' :: t1)) ++ (hdr2 :: body).flatten) = true
    rw [List.append_assoc]
    exact isSubstrOf_here _ _
  have hm2 : isSubstrOf (chars "+++") (hdr1 :: hdr2 :: body).flatten
      = true := by
    rw [List.flatten_cons]
    apply isSubstrOf_append_right
    rw [List.flatten_cons, ht2]
    show isSubstrOf (chars "+++")
      ((chars "+++" ++ (' ' :: t2)) ++ body.flatten) = true
    rw [List.append_assoc]
    exact isSubstrOf_here _ _
  have hsplitk : splitLinesKeep (hdr1 :: hdr2 :: body).flatten =
      hdr1 :: hdr2 :: body := splitLinesKeep_flatten _ hwf
  have hsplitn : splitLines (hdr1 :: hdr2 :: body).flatten =
      (hdr1 :: hdr2 :: body).map List.dropLast := splitLines_flatten _ hwf
  have hd1 := dash_header_preds t1 ht1n
  have hd2 := plus_header_preds t2 ht2n
  have hca : countAdded (splitLines (hdr1 :: hdr2 :: body).flatten)
      = countAdded (body.map List.dropLast) := by
    rw [hsplitn, List.map_cons, List.map_cons, countAdded_cons,
      countAdded_cons, ht1, ht2, hd1.1, hd2.1]
    simp
  have hcr : countRemoved (splitLines (hdr1 :: hdr2 :: body).flatten)
      = countRemoved (body.map List.dropLast) := by
    rw [hsplitn, List.map_cons, List.map_cons, countRemoved_cons,
      countRemoved_cons, ht1, ht2, hd1.2, hd2.2]
    simp
  obtain ⟨suf1, hn1, hsuf1⟩ := normalize_header_shape (pyBasename path)
    hdr1 (chars "--- ") (by decide) (by decide) hh1 (Or.inl hh1)
    (hwf hdr1 (by simp))
  obtain ⟨suf2, hn2, hsuf2⟩ := normalize_header_shape (pyBasename path)
    hdr2 (chars "+++ ") (by decide) (by decide) hh2 (Or.inr hh2)
    (hwf hdr2 (by simp))
  have hbodynorm : body.map (normalize_patch_line (pyBasename path)) =
      body := by
    conv_rhs => rw [← List.map_id body]
    refine List.map_congr_left fun l hl => ?_
    obtain ⟨e1, e2⟩ := hbodyhdr l hl
    simpa using normalize_patch_line_other (pyBasename path) l e1 e2
  have hw1 : wfKeepLine (normalize_patch_line (pyBasename path) hdr1)
      = true := by
    rw [hn1]
    apply (wfKeepLine_iff _).mpr
    refine ⟨chars "--- " ++ pyBasename path ++ suf1, by simp, ?_⟩
    intro hm
    rcases List.mem_append.mp hm with hm2 | hm2
    · rcases List.mem_append.mp hm2 with hm3 | hm3
      · revert hm3
        decide
      · exact hnn hm3
    · exact hsuf1 hm2
  have hw2 : wfKeepLine (normalize_patch_line (pyBasename path) hdr2)
      = true := by
    rw [hn2]
    apply (wfKeepLine_iff _).mpr
    refine ⟨chars "+++ " ++ pyBasename path ++ suf2, by simp, ?_⟩
    intro hm
    rcases List.mem_append.mp hm with hm2 | hm2
    · rcases List.mem_append.mp hm2 with hm3 | hm3
      · revert hm3
        decide
      · exact hnn hm3
    · exact hsuf2 hm2
  have hnormsplit : splitLinesKeep (normalize_patch_paths
      (hdr1 :: hdr2 :: body).flatten (pyBasename path)) =
      normalize_patch_line (pyBasename path) hdr1 ::
        normalize_patch_line (pyBasename path) hdr2 :: body := by
    unfold normalize_patch_paths
    rw [hsplitk, List.map_cons, List.map_cons, hbodynorm]
    apply splitLinesKeep_flatten
    intro l hl
    rcases List.mem_cons.mp hl with rfl | hl2
    · exact hw1
    · rcases List.mem_cons.mp hl2 with rfl | hl3
      · exact hw2
      · exact hwf l (by simp [hl3])
  have hns1 : startsWithL (chars "--- ")
      (normalize_patch_line (pyBasename path) hdr1) = true := by
    apply (startsWithL_eq _ _).mpr
    refine ⟨pyBasename path ++ suf1 ++ ['\n'], ?_⟩
    rw [hn1]
    simp
  have hns2 : startsWithL (chars "+++ ")
      (normalize_patch_line (pyBasename path) hdr2) = true := by
    apply (startsWithL_eq _ _).mpr
    refine ⟨pyBasename path ++ suf2 ++ ['\n'], ?_⟩
    rw [hn2]
    simp
  have hskip : apply_patch_fallback f
      (normalize_patch_line (pyBasename path) hdr1 ::
        normalize_patch_line (pyBasename path) hdr2 :: body) =
      apply_patch_fallback f body := by
    unfold apply_patch_fallback
    rw [fb_loop_skip_header _ _ _ _ _ (Or.inl hns1),
      fb_loop_skip_header _ _ _ _ _ (Or.inr hns2)]
  have hdn2 : ¬ uses_dev_null_headers (hdr1 :: hdr2 :: body).flatten
      = true := by simpa using hdn
  unfold apply_patch
  rw [if_neg hsz, if_neg (not_not_intro ⟨hm1, hm2, hat⟩), if_neg hsc,
    if_neg hdn2]
  dsimp only
  rw [hnormsplit, hskip, hca, hcr]

/-- Claim C7 (amended): applying the rendering of a valid structured
single-file diff from `f` to `specApply f hs` via `apply_patch` yields
exactly `specApply f hs`, with `lines_added`/`lines_removed` equal to
the diff's `+`/`-` content line counts, which in turn equal the number
of add/remove ops — provided no removed line starts with `--` and no
added line starts with `++` (`opSafe`), the side condition the
counterexample forces. -/
theorem patch_roundtrip_amended (f : List (List Char)) (hs : List Hunk)
    (hdr1 hdr2 : List Char) (body : List (List Char))
    (path : List Char) (maxKb : Nat)
    (hr : rendersHunks hs body = true)
    (hv : validFrom f 0 hs = true)
    (hsafe : ∀ h ∈ hs, ∀ op ∈ h.ops, opSafe op = true)
    (hwf : ∀ l ∈ hdr1 :: hdr2 :: body, wfKeepLine l = true)
    (hh1 : startsWithL (chars "--- ") hdr1 = true)
    (hh2 : startsWithL (chars "+++ ") hdr2 = true)
    (hbodyhdr : ∀ l ∈ body, startsWithL (chars "--- ") l = false ∧
      startsWithL (chars "+++ ") l = false)
    (hnn : '\n' ∉ pyBasename path)
    (hsz : ¬ utf8Len (hdr1 :: hdr2 :: body).flatten > maxKb * 1024)
    (hsc : ¬ count_patch_source_files (hdr1 :: hdr2 :: body).flatten > 1)
    (hdn : uses_dev_null_headers (hdr1 :: hdr2 :: body).flatten = false)
    (hat : isSubstrOf (chars "@@") (hdr1 :: hdr2 :: body).flatten = true) :
    apply_patch (some f) path (hdr1 :: hdr2 :: body).flatten maxKb =
      (.ok ⟨path, addsOf hs, delsOf hs⟩, some (specApply f hs)) ∧
    countAdded (splitLines (hdr1 :: hdr2 :: body).flatten) = addsOf hs ∧
    countRemoved (splitLines (hdr1 :: hdr2 :: body).flatten) = delsOf hs := by
  have hcounts := counts_of_renders hs body hr hsafe
  have hfb : apply_patch_fallback f body = .ok (specApply f hs) := by
    unfold apply_patch_fallback
    rw [fb_loop_hunks f hs body 0 [] hr hv]
    simp [specApply]
  have hred := apply_patch_headers_irrelevant f hdr1 hdr2 body path maxKb
    hwf hh1 hh2 hbodyhdr hnn hsz hsc hdn hat
  refine ⟨?_, ?_, ?_⟩
  · rw [hred, hfb, hcounts.1, hcounts.2]
  · have hsplitn : splitLines (hdr1 :: hdr2 :: body).flatten =
        (hdr1 :: hdr2 :: body).map List.dropLast := splitLines_flatten _ hwf
    obtain ⟨t1, ht1, ht1n⟩ := startsWith_wf_decomp _ hdr1 (by decide) hh1
      (hwf hdr1 (by simp))
    obtain ⟨t2, ht2, ht2n⟩ := startsWith_wf_decomp _ hdr2 (by decide) hh2
      (hwf hdr2 (by simp))
    rw [hsplitn, List.map_cons, List.map_cons, countAdded_cons,
      countAdded_cons, ht1, ht2, (dash_header_preds t1 ht1n).1,
      (plus_header_preds t2 ht2n).1, hcounts.1]
    simp
  · have hsplitn : splitLines (hdr1 :: hdr2 :: body).flatten =
        (hdr1 :: hdr2 :: body).map List.dropLast := splitLines_flatten _ hwf
    obtain ⟨t1, ht1, ht1n⟩ := startsWith_wf_decomp _ hdr1 (by decide) hh1
      (hwf hdr1 (by simp))
    obtain ⟨t2, ht2, ht2n⟩ := startsWith_wf_decomp _ hdr2 (by decide) hh2
      (hwf hdr2 (by simp))
    rw [hsplitn, List.map_cons, List.map_cons, countRemoved_cons,
      countRemoved_cons, ht1, ht2, (dash_header_preds t1 ht1n).2,
      (plus_header_preds t2 ht2n).2, hcounts.2]
    simp
/-- Claim C6 (counterexample): the patch `--- a.txt\n--- b.txt\n` has
two distinct source-path headers, yet `apply_patch` fails at the earlier
marker check (no `+++`/`@@` present) and raises `invalid_patch_format`
WITHOUT the claimed `details.source_file_count`. -/
theorem apply_patch_two_sources_counterexample :
    count_patch_source_files (chars "--- a.txt\n--- b.txt\n") = 2 ∧
    (apply_patch (some [chars "x\n"]) (chars "/tmp/t.txt")
      (chars "--- a.txt\n--- b.txt\n") 50).1 =
      .error ⟨"invalid_patch_format", none⟩ ∧
    (apply_patch (some [chars "x\n"]) (chars "/tmp/t.txt")
      (chars "--- a.txt\n--- b.txt\n") 50).2 = some [chars "x\n"] :=
  ⟨by decide, rfl, rfl⟩

/-- Claim C6 (amended): for every patch that passes the size check and
contains the three unified-diff markers, more than one distinct source
path header yields `invalid_patch_format` with
`details.source_file_count` equal to the distinct source-path count, and
the file content is unchanged. -/
theorem apply_patch_multi_source (fileContent : Option (List (List Char)))
    (path patch : List Char) (maxKb : Nat)
    (h1 : ¬ utf8Len patch > maxKb * 1024)
    (h2 : isSubstrOf (chars "---") patch = true)
    (h3 : isSubstrOf (chars "+++") patch = true)
    (h4 : isSubstrOf (chars "@@") patch = true)
    (h5 : count_patch_source_files patch > 1) :
    apply_patch fileContent path patch maxKb =
      (.error ⟨"invalid_patch_format",
        some (count_patch_source_files patch)⟩, fileContent) := by
  unfold apply_patch
  rw [if_neg h1, if_neg (not_not_intro ⟨h2, h3, h4⟩), if_pos h5]

/-- Claim C6 witness: a well-formed two-file patch is rejected with
`source_file_count = 2` and no mutation. -/
theorem apply_patch_multi_source_witness :
    apply_patch (some [chars "x\n"]) (chars "/tmp/t.txt")
      (chars "--- a.txt\n+++ a.txt\n@@ -1 +1 @@\n-x\n+y\n--- b.txt\n+++ b.txt\n@@ -1 +1 @@\n-u\n+v\n")
      50 =
      (.error ⟨"invalid_patch_format",
        some (count_patch_source_files
          (chars "--- a.txt\n+++ a.txt\n@@ -1 +1 @@\n-x\n+y\n--- b.txt\n+++ b.txt\n@@ -1 +1 @@\n-u\n+v\n"))⟩,
        some [chars "x\n"]) :=
  apply_patch_multi_source (some [chars "x\n"]) (chars "/tmp/t.txt")
    (chars "--- a.txt\n+++ a.txt\n@@ -1 +1 @@\n-x\n+y\n--- b.txt\n+++ b.txt\n@@ -1 +1 @@\n-u\n+v\n")
    50 (by decide) (by decide) (by decide) (by decide) (by decide)

/-- Claim C7 (counterexample): the structured diff deleting the single
line `-- a\n` is a valid single-file unified diff from `["-- a\n"]` to
`[]`, and its standard rendering is
`--- t.txt / +++ t.txt / @@ -1 +0,0 @@ / --- a`; but the rendered
removal line `--- a` is counted as a second source-path header, so
`apply_patch` rejects the patch with `invalid_patch_format`
(`source_file_count = 2`) instead of producing the empty file. -/
theorem patch_roundtrip_counterexample :
    chars "--- t.txt\n+++ t.txt\n@@ -1 +0,0 @@\n--- a\n" =
      ([chars "--- t.txt\n", chars "+++ t.txt\n"] ++
        splitLinesKeep (chars "@@ -1 +0,0 @@\n--- a\n")).flatten ∧
    rendersHunks [⟨1, [.del (chars "-- a\n")]⟩]
      (splitLinesKeep (chars "@@ -1 +0,0 @@\n--- a\n")) = true ∧
    validFrom [chars "-- a\n"] 0 [⟨1, [.del (chars "-- a\n")]⟩] = true ∧
    specApply [chars "-- a\n"] [⟨1, [.del (chars "-- a\n")]⟩] = [] ∧
    (apply_patch (some [chars "-- a\n"]) (chars "/tmp/t.txt")
      (chars "--- t.txt\n+++ t.txt\n@@ -1 +0,0 @@\n--- a\n") 50).1 =
      .error ⟨"invalid_patch_format", some 2⟩ ∧
    (apply_patch (some [chars "-- a\n"]) (chars "/tmp/t.txt")
      (chars "--- t.txt\n+++ t.txt\n@@ -1 +0,0 @@\n--- a\n") 50).2 =
      some [chars "-- a\n"] :=
  ⟨by decide, by decide, by decide, by decide, rfl, rfl⟩

/-- Claim C7 witness: the amended round-trip applied to the concrete
tier-1 example (replace `line2` by `line2_modified`). -/
theorem patch_roundtrip_amended_witness :
    apply_patch (some [chars "line1\n", chars "line2\n", chars "line3\n"])
      (chars "/tmp/repo/a.txt")
      (([chars "--- a.txt\n", chars "+++ a.txt\n"] ++
        [chars "@@ -2,1 +2,1 @@\n", chars "-line2\n",
          chars "+line2_modified\n"]).flatten) 50 =
      (.ok ⟨chars "/tmp/repo/a.txt",
        addsOf [⟨2, [.del (chars "line2\n"),
          .add (chars "line2_modified\n")]⟩],
        delsOf [⟨2, [.del (chars "line2\n"),
          .add (chars "line2_modified\n")]⟩]⟩,
        some (specApply
          [chars "line1\n", chars "line2\n", chars "line3\n"]
          [⟨2, [.del (chars "line2\n"),
            .add (chars "line2_modified\n")]⟩])) :=
  (patch_roundtrip_amended
    [chars "line1\n", chars "line2\n", chars "line3\n"]
    [⟨2, [.del (chars "line2\n"), .add (chars "line2_modified\n")]⟩]
    (chars "--- a.txt\n") (chars "+++ a.txt\n")
    [chars "@@ -2,1 +2,1 @@\n", chars "-line2\n",
      chars "+line2_modified\n"]
    (chars "/tmp/repo/a.txt") 50
    (by decide) (by decide) (by decide) (by decide) (by decide)
    (by decide) (by decide) (by decide) (by decide) (by decide)
    (by decide) (by decide)).1

/-- Claim C10: `_normalize_patch_paths` rewrites every `--- `/`+++ `
header line to the header prefix followed by the given filename,
preserving a tab-separated suffix (else terminating with a bare
newline), leaves all other lines unchanged; consequently, for every
patch passing validation, the result of `apply_patch` is the same for
any header file names: only the `path` argument determines the file
read, patched and written. -/
theorem normalize_paths_header_independence :
    (∀ filename line : List Char,
      (startsWithL (chars "--- ") line = true ∨
        startsWithL (chars "+++ ") line = true) →
      normalize_patch_line filename line =
        line.take 4 ++ filename ++
          (if ((line.drop 4).dropWhile (· ≠ '\t')).isEmpty then ['\n']
           else (line.drop 4).dropWhile (· ≠ '\t'))) ∧
    (∀ filename line : List Char,
      startsWithL (chars "--- ") line = false →
      startsWithL (chars "+++ ") line = false →
      normalize_patch_line filename line = line) ∧
    (∀ (f : List (List Char)) (hdr1 hdr2 hdr1A hdr2A : List Char)
      (body : List (List Char)) (path : List Char) (maxKb : Nat),
      (∀ l ∈ hdr1 :: hdr2 :: body, wfKeepLine l = true) →
      (∀ l ∈ hdr1A :: hdr2A :: body, wfKeepLine l = true) →
      startsWithL (chars "--- ") hdr1 = true →
      startsWithL (chars "+++ ") hdr2 = true →
      startsWithL (chars "--- ") hdr1A = true →
      startsWithL (chars "+++ ") hdr2A = true →
      (∀ l ∈ body, startsWithL (chars "--- ") l = false ∧
        startsWithL (chars "+++ ") l = false) →
      '\n' ∉ pyBasename path →
      ¬ utf8Len (hdr1 :: hdr2 :: body).flatten > maxKb * 1024 →
      ¬ utf8Len (hdr1A :: hdr2A :: body).flatten > maxKb * 1024 →
      ¬ count_patch_source_files (hdr1 :: hdr2 :: body).flatten > 1 →
      ¬ count_patch_source_files (hdr1A :: hdr2A :: body).flatten > 1 →
      uses_dev_null_headers (hdr1 :: hdr2 :: body).flatten = false →
      uses_dev_null_headers (hdr1A :: hdr2A :: body).flatten = false →
      isSubstrOf (chars "@@") (hdr1 :: hdr2 :: body).flatten = true →
      isSubstrOf (chars "@@") (hdr1A :: hdr2A :: body).flatten = true →
      apply_patch (some f) path (hdr1 :: hdr2 :: body).flatten maxKb =
        apply_patch (some f) path (hdr1A :: hdr2A :: body).flatten maxKb) := by
  refine ⟨?_, ?_, ?_⟩
  · intro filename line h
    unfold normalize_patch_line
    rw [if_pos h]
    dsimp only
    split <;> simp_all
  · intro filename line h1 h2
    exact normalize_patch_line_other filename line h1 h2
  · intro f hdr1 hdr2 hdr1A hdr2A body path maxKb hwf hwfA hh1 hh2 hh1A
      hh2A hbodyhdr hnn hsz hszA hsc hscA hdn hdnA hat hatA
    rw [apply_patch_headers_irrelevant f hdr1 hdr2 body path maxKb hwf
        hh1 hh2 hbodyhdr hnn hsz hsc hdn hat,
      apply_patch_headers_irrelevant f hdr1A hdr2A body path maxKb hwfA
        hh1A hh2A hbodyhdr hnn hszA hscA hdnA hatA]

/-- Claim C10 witness: the same body applied under two different header
file names gives the identical result. -/
theorem normalize_paths_header_independence_witness :
    apply_patch (some [chars "x\n", chars "y\n"]) (chars "/tmp/w/real.txt")
      ([chars "--- ignored_name.txt\n", chars "+++ ignored_name.txt\n",
        chars "@@ -1,1 +1,1 @@\n", chars "-x\n", chars "+z\n"] :
          List (List Char)).flatten 50 =
      apply_patch (some [chars "x\n", chars "y\n"]) (chars "/tmp/w/real.txt")
        ([chars "--- other.c\t2024\n", chars "+++ other.c\t2024\n",
          chars "@@ -1,1 +1,1 @@\n", chars "-x\n", chars "+z\n"] :
            List (List Char)).flatten 50 :=
  (normalize_paths_header_independence).2.2
    [chars "x\n", chars "y\n"]
    (chars "--- ignored_name.txt\n") (chars "+++ ignored_name.txt\n")
    (chars "--- other.c\t2024\n") (chars "+++ other.c\t2024\n")
    [chars "@@ -1,1 +1,1 @@\n", chars "-x\n", chars "+z\n"]
    (chars "/tmp/w/real.txt") 50
    (by decide) (by decide) (by decide) (by decide) (by decide)
    (by decide) (by decide) (by decide) (by decide) (by decide)
    (by decide) (by decide) (by decide) (by decide) (by decide)
    (by decide)
end SohnBot
